import Mathlib

/-!
Verification development for the `ahg` object store (src/ahg/git.py),
a port of the `wyag` reference implementation (src/wyag/libwyag.py).

The Python source is shallowly embedded: byte strings are `List Nat`,
Python exceptions are constructors of `PyErr` returned through `Except`,
and the source's unbounded loops/recursions are given explicit fuel
(fuel exhaustion is the distinguished outcome `PyErr.nonterm`; every
run considered in the theorems terminates well inside the supplied fuel).
zlib compression is modelled as the identity coding: the source only
relies on `decompress (compress x) = x`, and no claim concerns the
compressed representation itself.
-/

/-- Byte strings (`bytes` in the source); each entry is one byte value. -/
abbrev Bytes := List Nat

/-- Python exceptions raised by the embedded code.  `exception msg` models
`raise Exception(msg)`; the remaining constructors model the built-in
exception classes of the same name.  `nonterm` is not a Python exception:
it is the fuel-exhaustion outcome standing for divergence of the source's
unbounded loops. -/
inductive PyErr where
  | assertionError
  | attributeError
  | typeError
  | valueError
  | keyError
  | indexError
  | overflowError
  | unicodeError
  | exception (msg : String)
  | nonterm
  deriving DecidableEq, Repr

/-- Python slice-index normalization: a negative index counts from the end,
and the result is clamped into `[0, n]`. -/
def pyIdx (n : Nat) (i : Int) : Nat :=
  if i < 0 then (i + n).toNat else min i.toNat n

/-- Python slicing `s[a:b]`. -/
def pySlice (s : Bytes) (a b : Int) : Bytes :=
  (s.take (pyIdx s.length b)).drop (pyIdx s.length a)

/-- Python slicing `s[a:]`. -/
def pySliceFrom (s : Bytes) (a : Int) : Bytes :=
  s.drop (pyIdx s.length a)

/-- Python `s.find(c, start)` for a single-byte needle: the least index
`≥ start` holding byte `c`, or `-1` when there is none.  The start
position is normalized like a slice index. -/
def pyFind (s : Bytes) (c : Nat) (start : Int) : Int :=
  let b := pyIdx s.length start
  match List.findIdx? (fun x => x = c) (s.drop b) with
  | some i => ((b + i : Nat) : Int)
  | none => -1

/-- Python indexing `s[i]`: negative indices count from the end, and an
out-of-range index raises `IndexError`. -/
def pyGet (s : Bytes) (i : Int) : Except PyErr Nat :=
  let j : Int := if i < 0 then i + s.length else i
  if j < 0 then .error .indexError
  else
    match s.get? j.toNat with
    | some b => .ok b
    | none => .error .indexError

/-- Fuelled worker for `pyReplace`; the fuel is an upper bound on the
number of consumed elements, so `fuel = s.length` always suffices. -/
def pyReplaceGo [DecidableEq α] (pat rep : List α) : Nat → List α → List α
  | _, [] => []
  | 0, s => s
  | fuel + 1, c :: rest =>
    if pat ≠ [] ∧ pat.isPrefixOf (c :: rest) then
      rep ++ pyReplaceGo pat rep fuel ((c :: rest).drop pat.length)
    else
      c :: pyReplaceGo pat rep fuel rest

/-- Python `s.replace(pat, rep)` for a non-empty pattern: leftmost,
non-overlapping replacement. -/
def pyReplace [DecidableEq α] (pat rep s : List α) : List α :=
  pyReplaceGo pat rep s.length s

/-- Python values stored in a KVLM mapping: byte strings and
(possibly nested) lists of values. -/
inductive PyVal where
  | bytes (b : Bytes)
  | list (vs : List PyVal)
  deriving Repr

/-- KVLM dictionary keys: `None` (the message slot) or a byte-string key. -/
abbrev KvlmKey := Option Bytes

/-- An `OrderedDict` is modelled as an association list in insertion
order; assigning to an existing key keeps its position. -/
abbrev Dict := List (KvlmKey × PyVal)

/-- First value stored under `k`, if any. -/
def dictFind (d : Dict) (k : KvlmKey) : Option PyVal :=
  (d.find? (fun e => decide (e.1 = k))).map (·.2)

/-- `OrderedDict` assignment `d[k] = v`: overwrite in place, else append. -/
def dictSet (d : Dict) (k : KvlmKey) (v : PyVal) : Dict :=
  match d with
  | [] => [(k, v)]
  | (k', v') :: rest => if k' = k then (k, v) :: rest else (k', v') :: dictSet rest k v

/-- Models the Python expression `x is list` where `x` is a bytes or list
instance: identity comparison of a value against the type object `list`
is `False` for every instance (the source meant `type(x) == list`, as the
bundled `wyag` reference does; this port compares against the type object
itself). -/
def pyValIsTheTypeList (_ : PyVal) : Bool := false

/-- The continuation-scanning loop inside `kvlm_parse`:

    end = start
    while True:
        end = raw.find(b"\n", end + 1)
        if raw[end + 1] != ord(" "): break

Returns the final `end`.  Indexing past the end raises `IndexError`;
running out of fuel models the loop's genuine divergence on pathological
inputs (never reached on the inputs considered). -/
def kvlmScan (raw : Bytes) : Nat → Int → Except PyErr Int
  | 0, _ => .error .nonterm
  | fuel + 1, e =>
    let e' := pyFind raw 10 (e + 1)
    match pyGet raw (e' + 1) with
    | .error err => .error err
    | .ok b => if b ≠ 32 then .ok e' else kvlmScan raw fuel e'

/-- One step of `kvlm_parse` at cursor `start` with accumulator `dct`;
the fuel bounds the recursion depth (one unit per parsed header line). -/
def kvlmParseGo (raw : Bytes) : Nat → Nat → Dict → Except PyErr Dict
  | 0, _, _ => .error .nonterm
  | fuel + 1, start, dct =>
    let spc := pyFind raw 32 start
    let nl := pyFind raw 10 start
    if spc < 0 ∨ nl < spc then
      -- base case: blank line, remainder is the message
      if nl = (start : Int) then
        .ok (dictSet dct none (.bytes (pySliceFrom raw (start + 1))))
      else
        .error .assertionError
    else
      let key := pySlice raw start spc
      match kvlmScan raw (raw.length + 2) start with
      | .error err => .error err
      | .ok e =>
        let value := pyReplace [10, 32] [10] (pySlice raw (spc + 1) e)
        let dct' :=
          match dictFind dct (some key) with
          | some old =>
            if pyValIsTheTypeList old then
              -- `dct[key].append(value)`: dead code, the guard is constant false
              match old with
              | .list vs => dictSet dct (some key) (.list (vs ++ [.bytes value]))
              | .bytes b => dictSet dct (some key) (.list [.bytes b, .bytes value])
            else
              dictSet dct (some key) (.list [old, .bytes value])
          | none => dictSet dct (some key) (.bytes value)
        kvlmParseGo raw fuel (e + 1).toNat dct'

/-- `kvlm_parse(raw)` from the source, with fuel `raw.length + 1`:
every terminating run of the source consumes at least one byte per
header line, so this fuel is never the binding constraint. -/
def kvlm_parse (raw : Bytes) : Except PyErr Dict :=
  kvlmParseGo raw (raw.length + 1) 0 []

/-- The header-emitting loop of `kvlm_serialize`: one `key SP value NL`
line per kept entry.  The source's `if val is not list: val = [val]`
wraps every value (the identity test against the type object is always
true), so a stored list value reaches `v.replace` and raises
`AttributeError`. -/
def kvlmSerializeHeaders : Dict → Except PyErr Bytes
  | [] => .ok []
  | (k, v) :: rest =>
    match k with
    | none => kvlmSerializeHeaders rest
    | some kb =>
      if kb = [] then
        kvlmSerializeHeaders rest
      else
        match v with
        | .bytes b =>
          (kvlmSerializeHeaders rest).map
            (fun tail => kb ++ [32] ++ pyReplace [10] [10, 32] b ++ [10] ++ tail)
        | .list _ => .error .attributeError

/-- `kvlm_serialize(kvlm)` from the source: header lines, then a blank
line, the message body, and a trailing newline.  A missing message slot
raises `KeyError`; a list stored in the message slot raises `TypeError`
(`bytes + list`). -/
def kvlm_serialize (d : Dict) : Except PyErr Bytes := do
  let hdr ← kvlmSerializeHeaders d
  match dictFind d none with
  | none => .error .keyError
  | some (.bytes m) => .ok (hdr ++ [10] ++ m ++ [10])
  | some (.list _) => .error .typeError

/-- ASCII byte string of a Lean string literal (used only to write down
concrete inputs; all concrete inputs in this file are ASCII). -/
def asciiBytes (s : String) : Bytes := s.toList.map Char.toNat

/-! ### Hex / decimal rendering and parsing -/

/-- Lowercase hex digit for `n < 16`. -/
def hexDigitChar (n : Nat) : Char :=
  if n < 10 then Char.ofNat (48 + n) else Char.ofNat (87 + n)

/-- Fuelled hex-digit production (most significant first, empty for 0);
`fuel ≥ number of digits` suffices. -/
def hexDigitsGo : Nat → Nat → List Char
  | 0, _ => []
  | f + 1, n => if n = 0 then [] else hexDigitsGo f (n / 16) ++ [hexDigitChar (n % 16)]

/-- Python `format(n, "0<width>x")`: lowercase hex, left-padded with
zeros to `width` digits (all uses stay within `width` digits). -/
def toHexFixed (width n : Nat) : String :=
  let ds := hexDigitsGo (n + 1) n
  String.mk (List.replicate (width - ds.length) '0' ++ ds)

/-- Fuelled decimal-digit production. -/
def decDigitsGo : Nat → Nat → List Char
  | 0, _ => []
  | f + 1, n =>
    if n < 10 then [Char.ofNat (48 + n)]
    else decDigitsGo f (n / 10) ++ [Char.ofNat (48 + n % 10)]

/-- Python `str(n)` for a natural number. -/
def natToDecStr (n : Nat) : String := String.mk (decDigitsGo (n + 1) n)

/-- Big-endian value of a byte string (`int.from_bytes(b, "big")`). -/
def beToNat (b : Bytes) : Nat := b.foldl (fun a x => a * 256 + x) 0

/-- Exactly `len` big-endian bytes of `n % 256 ^ len`. -/
def beBytes : Nat → Nat → Bytes
  | 0, _ => []
  | l + 1, n => beBytes l (n / 256) ++ [n % 256]

/-- Python `int.to_bytes(len, "big")`: `OverflowError` when `n` does not
fit. -/
def toBytesBE (len n : Nat) : Except PyErr Bytes :=
  if n < 256 ^ len then .ok (beBytes len n) else .error .overflowError

/-- Hex value of one character, if it is a hex digit. -/
def hexVal (c : Char) : Option Nat :=
  let n := c.toNat
  if 48 ≤ n ∧ n ≤ 57 then some (n - 48)
  else if 97 ≤ n ∧ n ≤ 102 then some (n - 87)
  else if 65 ≤ n ∧ n ≤ 70 then some (n - 55)
  else none

/-- Python `int(s, 16)` restricted to plain hex-digit strings (the only
shape the source ever passes); anything else is a `ValueError`. -/
def hexToNat (s : String) : Except PyErr Nat :=
  let ds := s.toList.mapM hexVal
  match ds with
  | some l => if l = [] then .error .valueError else .ok (l.foldl (fun a d => a * 16 + d) 0)
  | none => .error .valueError

/-- ASCII whitespace accepted by Python `int()` / `str.strip()`. -/
def isPyWs (b : Nat) : Bool := b = 32 ∨ b = 9 ∨ b = 10 ∨ b = 11 ∨ b = 12 ∨ b = 13

/-- Python `int(b.decode("ascii"))`: non-ASCII bytes raise
`UnicodeError`; surrounding whitespace and an optional sign are
accepted; anything else, or an empty digit run, is a `ValueError`. -/
def pyIntOfAscii (b : Bytes) : Except PyErr Int :=
  if b.any (fun x => 128 ≤ x) then .error .unicodeError
  else
    let t := (b.dropWhile isPyWs).reverse.dropWhile isPyWs |>.reverse
    let (sign, digits) :=
      match t with
      | 45 :: rest => ((-1 : Int), rest)
      | 43 :: rest => ((1 : Int), rest)
      | _ => ((1 : Int), t)
    if digits = [] ∨ digits.any (fun x => x < 48 ∨ 57 < x) then .error .valueError
    else .ok (sign * (digits.foldl (fun a d => a * 10 + (d - 48)) 0 : Nat))

/-- Python `b.decode("ascii")`: fails on any byte ≥ 128. -/
def asciiDecode (b : Bytes) : Except PyErr String :=
  if b.any (fun x => 128 ≤ x) then .error .unicodeError
  else .ok (String.mk (b.map Char.ofNat))

/-! ### UTF-8 codec (Python `str.encode("utf8")` / `bytes.decode("utf8")`) -/

/-- Standard UTF-8 encoding of one scalar value. -/
def utf8EncodeChar (c : Char) : Bytes :=
  let n := c.toNat
  if n < 128 then [n]
  else if n < 2048 then [192 + n / 64, 128 + n % 64]
  else if n < 65536 then [224 + n / 4096, 128 + n / 64 % 64, 128 + n % 64]
  else [240 + n / 262144, 128 + n / 4096 % 64, 128 + n / 64 % 64, 128 + n % 64]

/-- Python `s.encode("utf8")`. -/
def utf8Encode (s : String) : Bytes := (s.toList.map utf8EncodeChar).flatten

/-- Is `b` a UTF-8 continuation byte? -/
def isCont (b : Nat) : Bool := 128 ≤ b ∧ b < 192

/-- Fuelled UTF-8 decoder with the validation Python performs (rejects
bad continuation bytes, overlong forms, surrogates and values past
U+10FFFF); `fuel = length` suffices since every step consumes a byte. -/
def utf8DecodeGo : Nat → Bytes → Except PyErr (List Char)
  | _, [] => .ok []
  | 0, _ => .error .nonterm
  | f + 1, b :: rest =>
    if b < 128 then
      (utf8DecodeGo f rest).map (Char.ofNat b :: ·)
    else if 194 ≤ b ∧ b ≤ 223 then
      match rest with
      | b2 :: r2 =>
        if isCont b2 then
          (utf8DecodeGo f r2).map (Char.ofNat ((b - 192) * 64 + (b2 - 128)) :: ·)
        else .error .unicodeError
      | _ => .error .unicodeError
    else if 224 ≤ b ∧ b ≤ 239 then
      match rest with
      | b2 :: b3 :: r3 =>
        let lo2 := if b = 224 then 160 else 128
        let hi2 := if b = 237 then 159 else 191
        if (lo2 ≤ b2 ∧ b2 ≤ hi2) ∧ isCont b3 then
          (utf8DecodeGo f r3).map
            (Char.ofNat ((b - 224) * 4096 + (b2 - 128) * 64 + (b3 - 128)) :: ·)
        else .error .unicodeError
      | _ => .error .unicodeError
    else if 240 ≤ b ∧ b ≤ 244 then
      match rest with
      | b2 :: b3 :: b4 :: r4 =>
        let lo2 := if b = 240 then 144 else 128
        let hi2 := if b = 244 then 143 else 191
        if (lo2 ≤ b2 ∧ b2 ≤ hi2) ∧ isCont b3 ∧ isCont b4 then
          (utf8DecodeGo f r4).map
            (Char.ofNat ((b - 240) * 262144 + (b2 - 128) * 4096 + (b3 - 128) * 64 + (b4 - 128)) :: ·)
        else .error .unicodeError
      | _ => .error .unicodeError
    else .error .unicodeError

/-- Python `b.decode("utf8")`. -/
def utf8Decode (b : Bytes) : Except PyErr String :=
  (utf8DecodeGo b.length b).map String.mk

/-! ### SHA-1 (FIPS 180-4, as used through `hashlib.sha1(..).hexdigest()`) -/

/-- Truncation to 32 bits. -/
def u32 (x : Nat) : Nat := x % 4294967296

/-- 32-bit left rotation (arguments already < 2^32). -/
def rotl (n x : Nat) : Nat := u32 ((x <<< n) ||| (x >>> (32 - n)))

/-- SHA-1 message padding: `0x80`, zeros to 56 mod 64, 64-bit big-endian
bit length. -/
def sha1Pad (msg : Bytes) : Bytes :=
  msg ++ [128] ++ List.replicate ((119 - msg.length % 64) % 64) 0 ++ beBytes 8 (8 * msg.length)

/-- Split into 64-byte blocks (fuel ≥ length suffices). -/
def toBlocksGo : Nat → Bytes → List Bytes
  | _, [] => []
  | 0, s => [s]
  | f + 1, s => s.take 64 :: toBlocksGo f (s.drop 64)

/-- Split a 64-byte block into sixteen 32-bit big-endian words. -/
def wordsOfGo : Nat → Bytes → List Nat
  | _, [] => []
  | 0, s => [beToNat s]
  | f + 1, s => beToNat (s.take 4) :: wordsOfGo f (s.drop 4)

/-- The message-schedule extension: append `count` more words. -/
def sha1W (w : List Nat) : Nat → List Nat
  | 0 => w
  | k + 1 =>
    let n := w.length
    let x := ((w.getD (n - 3) 0).xor (w.getD (n - 8) 0)).xor
      ((w.getD (n - 14) 0).xor (w.getD (n - 16) 0))
    sha1W (w ++ [rotl 1 x]) k

/-- Round function. -/
def sha1F (i b c d : Nat) : Nat :=
  if i < 20 then (b &&& c) ||| ((b.xor 4294967295) &&& d)
  else if i < 40 then (b.xor c).xor d
  else if i < 60 then (b &&& c) ||| (b &&& d) ||| (c &&& d)
  else (b.xor c).xor d

/-- Round constants. -/
def sha1K (i : Nat) : Nat :=
  if i < 20 then 1518500249
  else if i < 40 then 1859775393
  else if i < 60 then 2400959708
  else 3395469782

/-- The 80-round compression loop. -/
def sha1Rounds : List Nat → Nat → Nat × Nat × Nat × Nat × Nat → Nat × Nat × Nat × Nat × Nat
  | [], _, st => st
  | w :: ws, i, (a, b, c, d, e) =>
    let t := u32 (rotl 5 a + sha1F i b c d + e + sha1K i + w)
    sha1Rounds ws (i + 1) (t, a, rotl 30 b, c, d)

/-- Process all blocks from the initial state. -/
def sha1Blocks : List Bytes → Nat × Nat × Nat × Nat × Nat → Nat × Nat × Nat × Nat × Nat
  | [], h => h
  | blk :: rest, (h0, h1, h2, h3, h4) =>
    let w := sha1W (wordsOfGo 16 blk) 64
    let (a, b, c, d, e) := sha1Rounds w 0 (h0, h1, h2, h3, h4)
    sha1Blocks rest (u32 (h0 + a), u32 (h1 + b), u32 (h2 + c), u32 (h3 + d), u32 (h4 + e))

/-- `hashlib.sha1(msg).hexdigest()`: 40 lowercase hex characters. -/
def sha1Hex (msg : Bytes) : String :=
  let p := sha1Pad msg
  let (h0, h1, h2, h3, h4) :=
    sha1Blocks (toBlocksGo p.length p) (1732584193, 4023233417, 2562383102, 271733878, 3285377520)
  toHexFixed 8 h0 ++ toHexFixed 8 h1 ++ toHexFixed 8 h2 ++ toHexFixed 8 h3 ++ toHexFixed 8 h4

/-! ### Binary tree codec -/

/-- One tree entry (`GitTreeLeaf` in the source). -/
structure GitTreeLeaf where
  mode : Bytes
  path : String
  sha : String
  deriving DecidableEq, Repr

/-- `tree_parse_one(raw, start)`: mode field up to the first space (the
`assert` demands 5 or 6 bytes; a 5-byte mode is left-padded with an
ASCII space `b" "`), NUL-terminated UTF-8 path, then 20 raw bytes read
big-endian and rendered as 40 hex digits. -/
def tree_parse_one (raw : Bytes) (start : Nat) : Except PyErr (Nat × GitTreeLeaf) :=
  let x := pyFind raw 32 start
  if x - (start : Int) = 5 ∨ x - (start : Int) = 6 then
    let mode := pySlice raw start x
    let mode := if mode.length = 5 then 32 :: mode else mode
    let y := pyFind raw 0 x
    match utf8Decode (pySlice raw (x + 1) y) with
    | .error e => .error e
    | .ok path =>
      let sha := toHexFixed 40 (beToNat (pySlice raw (y + 1) (y + 21)))
      .ok ((y + 21).toNat, ⟨mode, path, sha⟩)
  else .error .assertionError

/-- The `while pos < max` loop of `tree_parse`; fuel bounds the number
of entries (each well-formed entry consumes at least 8 bytes). -/
def treeParseGo (raw : Bytes) : Nat → Nat → Except PyErr (List GitTreeLeaf)
  | 0, _ => .error .nonterm
  | fuel + 1, pos =>
    if pos < raw.length then
      match tree_parse_one raw pos with
      | .error e => .error e
      | .ok (pos', leaf) =>
        match treeParseGo raw fuel pos' with
        | .error e => .error e
        | .ok rest => .ok (leaf :: rest)
    else .ok []

/-- `tree_parse(raw)` from the source. -/
def tree_parse (raw : Bytes) : Except PyErr (List GitTreeLeaf) :=
  treeParseGo raw (raw.length + 1) 0

/-- `tree_leaf_sort_key`: the path itself for a `10`-prefixed (regular
file) mode, otherwise the path with `/` appended. -/
def tree_leaf_sort_key (leaf : GitTreeLeaf) : String :=
  if [49, 48].isPrefixOf leaf.mode then leaf.path else leaf.path ++ "/"

/-- Lexicographic comparison of character lists by code point — exactly
how Python compares the `str` sort keys. -/
def charListLe : List Char → List Char → Bool
  | [], _ => true
  | _ :: _, [] => false
  | a :: as, b :: bs =>
    if a.toNat < b.toNat then true
    else if b.toNat < a.toNat then false
    else charListLe as bs

/-- The comparison Python's stable `list.sort(key=tree_leaf_sort_key)`
sorts by. -/
def treeLeafLe (a b : GitTreeLeaf) : Prop :=
  charListLe (tree_leaf_sort_key a).toList (tree_leaf_sort_key b).toList = true

instance : DecidableRel treeLeafLe := fun _ _ =>
  inferInstanceAs (Decidable (_ = true))

instance : IsTotal GitTreeLeaf treeLeafLe := by
  constructor
  intro a b
  unfold treeLeafLe
  generalize (tree_leaf_sort_key a).toList = as
  generalize (tree_leaf_sort_key b).toList = bs
  induction as generalizing bs with
  | nil => simp [charListLe]
  | cons x xs ih =>
    cases bs with
    | nil => simp [charListLe]
    | cons y ys =>
      simp only [charListLe]
      rcases Nat.lt_trichotomy x.toNat y.toNat with h | h | h
      · simp [h]
      · simp only [h, Nat.lt_irrefl, if_false]
        exact ih ys
      · simp [h, Nat.lt_asymm h]

instance : IsTrans GitTreeLeaf treeLeafLe := by
  constructor
  intro a b c
  unfold treeLeafLe
  generalize (tree_leaf_sort_key a).toList = as
  generalize (tree_leaf_sort_key b).toList = bs
  generalize (tree_leaf_sort_key c).toList = cs
  induction as generalizing bs cs with
  | nil => simp [charListLe]
  | cons x xs ih =>
    intro h1 h2
    cases bs with
    | nil => simp [charListLe] at h1
    | cons y ys =>
      cases cs with
      | nil => simp [charListLe] at h2
      | cons z zs =>
        simp only [charListLe] at h1 h2 ⊢
        split_ifs at h1 h2 ⊢ with hxy hyx hyz hzy hxz hzx
        all_goals try rfl
        all_goals try omega
        · exact ih ys zs h1 h2

/-- A tree object's mutable payload (`GitTree.items`). -/
structure GitTree where
  items : List GitTreeLeaf
  deriving DecidableEq, Repr

/-- The emission loop of `tree_serialize`: mode bytes as stored, space,
UTF-8 path, NUL, then `int(sha, 16).to_bytes(20, "big")`. -/
def treeEmit : List GitTreeLeaf → Except PyErr Bytes
  | [] => .ok []
  | leaf :: rest =>
    match hexToNat leaf.sha with
    | .error e => .error e
    | .ok n =>
      match toBytesBE 20 n with
      | .error e => .error e
      | .ok shaB =>
        (treeEmit rest).map
          (fun tail => leaf.mode ++ [32] ++ utf8Encode leaf.path ++ [0] ++ shaB ++ tail)

/-- `tree_serialize(obj)`: first sorts `obj.items` IN PLACE by
`tree_leaf_sort_key` (the mutation is returned as the first component;
Python's sort is stable, as is `List.insertionSort`), then emits the
entries.  A malformed `sha` raises after the mutation has happened. -/
def tree_serialize (t : GitTree) : GitTree × Except PyErr Bytes :=
  let sorted := List.insertionSort treeLeafLe t.items
  (⟨sorted⟩, treeEmit sorted)

/-! ### Object model -/

/-- The four object variants.  Fields record the Python attributes after
construction: `GitBlob(data)` sets `blobdata` only when `data` is truthy
(an `Option` models the possibly-missing attribute); `GitCommit.__init__`
and `GitTree.__init__` run `super().__init__(data)` (which deserializes)
and then overwrite the deserialized field with an empty container, so a
constructed commit/tree/tag always carries an empty `kvlm` / `items`. -/
inductive GitObject where
  | blob (blobdata : Option Bytes)
  | commit (kvlm : Dict)
  | tree (t : GitTree)
  | tag (kvlm : Dict)
  deriving Repr

/-- `GitBlob(data)`. -/
def mkBlob (data : Bytes) : GitObject :=
  if data ≠ [] then .blob (some data) else .blob none

/-- `GitCommit(data)`: `deserialize` (i.e. `kvlm_parse`) runs when
`data` is truthy and its exceptions propagate, but the parsed mapping is
then clobbered by `self.kvlm = dict()`. -/
def mkCommit (data : Bytes) : Except PyErr GitObject :=
  if data ≠ [] then
    match kvlm_parse data with
    | .error e => .error e
    | .ok _ => .ok (.commit [])
  else .ok (.commit [])

/-- `GitTag(data)`: inherits `GitCommit.__init__`, same clobber. -/
def mkTag (data : Bytes) : Except PyErr GitObject :=
  if data ≠ [] then
    match kvlm_parse data with
    | .error e => .error e
    | .ok _ => .ok (.tag [])
  else .ok (.tag [])

/-- `GitTree(data)`: `tree_parse` runs, then `self.items = list()`. -/
def mkTree (data : Bytes) : Except PyErr GitObject :=
  if data ≠ [] then
    match tree_parse data with
    | .error e => .error e
    | .ok _ => .ok (.tree ⟨[]⟩)
  else .ok (.tree ⟨[]⟩)

/-- `obj.serialize()`.  A blob without `blobdata` raises
`AttributeError`; tree serialization mutates the object (first
component). -/
def objSerialize (o : GitObject) : GitObject × Except PyErr Bytes :=
  match o with
  | .blob none => (o, .error .attributeError)
  | .blob (some d) => (o, .ok d)
  | .commit kv => (o, kvlm_serialize kv)
  | .tag kv => (o, kvlm_serialize kv)
  | .tree t =>
    let (t', r) := tree_serialize t
    (.tree t', r)

/-- The class attribute `fmt`. -/
def objFmt : GitObject → Bytes
  | .blob _ => asciiBytes "blob"
  | .commit _ => asciiBytes "commit"
  | .tree _ => asciiBytes "tree"
  | .tag _ => asciiBytes "tag"

/-! ### Repository / filesystem model

The filesystem is a list of `(path, contents)` files.  A directory
exists when some file lies strictly beneath it; empty directories are
irrelevant to every claim considered, so `os.makedirs` is a no-op in
the model.  zlib is the identity coding (see the header comment). -/

/-- `zlib.compress`. -/
def zlibCompress (b : Bytes) : Bytes := b

/-- `zlib.decompress`. -/
def zlibDecompress (b : Bytes) : Bytes := b

/-- A repository handle plus the portion of the filesystem under it. -/
structure Repo where
  gitdir : String
  files : List (String × Bytes)
  deriving DecidableEq, Repr

/-- Contents of the file at `p`, if one exists. -/
def fileAt (r : Repo) (p : String) : Option Bytes :=
  (r.files.find? (fun e => decide (e.1 = p))).map (·.2)

/-- Does `p` exist as a directory (some file strictly beneath it)?
The prefix test is done on the character lists (equivalent to the
string-level test, and reducible by the kernel). -/
def dirAt (r : Repo) (p : String) : Bool :=
  r.files.any (fun e => (p ++ "/").toList.isPrefixOf e.1.toList)

/-- `repo_path(repo, *path)`: `os.path.join(repo.gitdir, *path)` with
`/` separators. -/
def repo_path (r : Repo) (comps : List String) : String :=
  comps.foldl (fun acc c => acc ++ "/" ++ c) r.gitdir

/-- `repo_dir(repo, *path, mkdir)`: a file where the directory should be
raises; an existing directory (or, with `mkdir`, a created one) yields
the path; otherwise `None`. -/
def repo_dir (r : Repo) (comps : List String) (mkdir : Bool) : Except PyErr (Option String) :=
  let p := repo_path r comps
  if (fileAt r p).isSome then .error (.exception ("Not a directory " ++ p))
  else if dirAt r p then .ok (some p)
  else if mkdir then .ok (some p)
  else .ok none

/-- `repo_file(repo, *path, mkdir)`: ensure `dirname(*path)` then return
the full path (Python falls through to `None` when `repo_dir` does). -/
def repo_file (r : Repo) (comps : List String) (mkdir : Bool) : Except PyErr (Option String) :=
  match repo_dir r comps.dropLast mkdir with
  | .error e => .error e
  | .ok (some _) => .ok (some (repo_path r comps))
  | .ok none => .ok none

/-- Python string slice `s[:n]`. -/
def strTake (s : String) (n : Nat) : String := String.mk (s.toList.take n)

/-- Python string slice `s[n:]`. -/
def strDrop (s : String) (n : Nat) : String := String.mk (s.toList.drop n)

/-! ### Object store -/

/-- `object_read(repo, sha)`.  When the two-hex-character subdirectory
does not exist, `repo_file` returns `None` and `os.path.isfile(None)`
raises `TypeError`; a missing file under an existing subdirectory raises
`Exception("Object ... not found!")`; then frame-header parsing and
variant dispatch as in the source. -/
def object_read (r : Repo) (sha : String) : Except PyErr GitObject :=
  match repo_file r ["objects", strTake sha 2, strDrop sha 2] false with
  | .error e => .error e
  | .ok none => .error .typeError
  | .ok (some path) =>
    match fileAt r path with
    | none => .error (.exception ("Object " ++ sha ++ " not found!"))
    | some stored =>
      let raw := zlibDecompress stored
      let x := pyFind raw 32 0
      let fmt := pySlice raw 0 x
      let y := pyFind raw 0 x
      match pyIntOfAscii (pySlice raw x y) with
      | .error e => .error e
      | .ok size =>
        if size ≠ (raw.length : Int) - y - 1 then
          .error (.exception ("Malformed object " ++ sha ++ ": bad length"))
        else
          let payload := pySliceFrom raw (y + 1)
          if fmt = asciiBytes "commit" then mkCommit payload
          else if fmt = asciiBytes "tree" then mkTree payload
          else if fmt = asciiBytes "tag" then mkTag payload
          else if fmt = asciiBytes "blob" then .ok (mkBlob payload)
          else
            match asciiDecode fmt with
            | .error e => .error e
            | .ok fstr => .error (.exception ("Unknown type " ++ fstr ++ " for object " ++ sha))

/-- `object_write(obj, repo)`: serialize (mutating trees), frame, hash;
with a repository, create the object path (`mkdir=True`) and write the
compressed frame only when nothing exists there yet.  Returns the hex
identity, the possibly-mutated object and the possibly-extended
repository state. -/
def object_write (o : GitObject) (repo : Option Repo) :
    Except PyErr (String × GitObject × Option Repo) :=
  let (o', res) := objSerialize o
  match res with
  | .error e => .error e
  | .ok data =>
    let result := objFmt o' ++ [32] ++ asciiBytes (natToDecStr data.length) ++ [0] ++ data
    let sha := sha1Hex result
    match repo with
    | none => .ok (sha, o', none)
    | some r =>
      match repo_file r ["objects", strTake sha 2, strDrop sha 2] true with
      | .error e => .error e
      | .ok none => .error .typeError
      | .ok (some path) =>
        if (fileAt r path).isSome || dirAt r path then .ok (sha, o', some r)
        else .ok (sha, o', some { r with files := (path, zlibCompress result) :: r.files })

/-! ### Commit-graph traversal (`log_graphviz`) -/

/-- ASCII whitespace predicate on characters (for `str.strip()`; every
message considered is ASCII). -/
def isWsChar (c : Char) : Bool := isPyWs c.toNat

/-- Python `str.strip()` restricted to ASCII whitespace. -/
def pyStrip (l : List Char) : List Char :=
  ((l.dropWhile isWsChar).reverse.dropWhile isWsChar).reverse

/-- `log_graphviz(repo, sha, seen)`: returns the printed lines and the
final seen-set.  The source's `if parents is not list: parents = [parents]`
always wraps (identity test against the type object), so the loop body
runs exactly once with `p` bound to the stored `parent` value; when that
value is a list (a merge commit), `p.decode("ascii")` raises
`AttributeError` before any edge is printed. -/
def log_graphviz (r : Repo) : Nat → String → List String → Except PyErr (List String × List String)
  | 0, _, _ => .error .nonterm
  | fuel + 1, sha, seen =>
    if sha ∈ seen then .ok ([], seen)
    else
      let seen1 := seen ++ [sha]
      match object_read r sha with
      | .error e => .error e
      | .ok obj =>
        -- `assert isinstance(commit, GitCommit)`: GitTag subclasses GitCommit
        match (match obj with
          | .commit kv => Except.ok kv
          | .tag kv => Except.ok kv
          | _ => Except.error PyErr.assertionError) with
        | .error e => .error e
        | .ok kv =>
          match dictFind kv none with
          | none => .error .keyError
          | some (.list _) => .error .attributeError
          | some (.bytes mb) =>
            match utf8Decode mb with
            | .error e => .error e
            | .ok mstr =>
              let m1 := pyStrip mstr.toList
              let m2 := pyReplace ['\\'] ['\\', '\\'] m1
              let m3 := pyReplace ['"'] ['\\', '"'] m2
              let m4 := if '\n' ∈ m3 then m3.takeWhile (fun c => c ≠ '\n') else m3
              let nodeLine :=
                "  c_" ++ sha ++ " [label=\"" ++ strTake sha 8 ++ ": " ++ String.mk m4 ++ "\"]"
              match dictFind kv (some (asciiBytes "parent")) with
              | none => .ok ([nodeLine], seen1)
              | some (.list _) => .error .attributeError
              | some (.bytes pb) =>
                match asciiDecode pb with
                | .error e => .error e
                | .ok pstr =>
                  let edgeLine := "  c_" ++ sha ++ " -> c_" ++ pstr
                  match log_graphviz r fuel pstr seen1 with
                  | .error e => .error e
                  | .ok (sub, seen2) => .ok (nodeLine :: edgeLine :: sub, seen2)

/-! ### Concrete repository states used by the theorems -/

/-- Frame bytes for an object: tag, space, ASCII decimal payload length,
NUL, payload. -/
def frameOf (tag : String) (payload : Bytes) : Bytes :=
  asciiBytes tag ++ [32] ++ asciiBytes (natToDecStr payload.length) ++ [0] ++ payload

/-- Object-store path of an identity under `.git`. -/
def objPath (sha : String) : String :=
  ".git/objects/" ++ strTake sha 2 ++ "/" ++ strDrop sha 2

/-- A repository with no object files at all. -/
def emptyRepo : Repo := ⟨".git", []⟩

/-- A diamond-shaped history: merge commit `aaaa` with parents `bbbb`
and `cccc`, both children of the root `dddd`. -/
def diamondRepo : Repo :=
  ⟨".git",
    [(objPath "aaaa",
        zlibCompress (frameOf "commit" (asciiBytes "parent bbbb\nparent cccc\n\nmerge\n"))),
     (objPath "bbbb",
        zlibCompress (frameOf "commit" (asciiBytes "parent dddd\n\nleft\n"))),
     (objPath "cccc",
        zlibCompress (frameOf "commit" (asciiBytes "parent dddd\n\nright\n"))),
     (objPath "dddd",
        zlibCompress (frameOf "commit" (asciiBytes "\nroot\n")))]⟩

/-! ### Helper definitions used by the theorem statements and proofs -/

/-- Structural characterization of the serializer's line folding
`v.replace(b"\n", b"\n ")` (proved equal to `pyReplace` below). -/
def escSpec : Bytes → Bytes
  | [] => []
  | c :: t => if c = 10 then 10 :: 32 :: escSpec t else c :: escSpec t

/-- Structural characterization of the parser's line unfolding
`v.replace(b"\n ", b"\n")` (proved equal to `pyReplace` below). -/
def unescSpec : Bytes → Bytes
  | [] => []
  | [c] => [c]
  | c :: c2 :: t =>
    if c = 10 ∧ c2 = 32 then 10 :: unescSpec t else c :: unescSpec (c2 :: t)

/-- The KVLM header section rendered from a list of key/value pairs:
one `key SP foldedvalue NL` line per pair. -/
def renderEntries : List (Bytes × Bytes) → Bytes
  | [] => []
  | (k, v) :: t => k ++ 32 :: escSpec v ++ 10 :: renderEntries t

/-- Dictionary entry corresponding to one key/value pair. -/
def kvlmEntry (e : Bytes × Bytes) : KvlmKey × PyVal := (some e.1, .bytes e.2)

/-- A header key as the codec produces them: non-empty, no space, no
newline. -/
def goodKey (k : Bytes) : Prop := k ≠ [] ∧ 32 ∉ k ∧ 10 ∉ k

instance (k : Bytes) : Decidable (goodKey k) :=
  inferInstanceAs (Decidable (_ ∧ _ ∧ _))

/-- Number of files stored at exactly path `p`. -/
def countAt (r : Repo) (p : String) : Nat :=
  r.files.countP (fun e => decide (e.1 = p))

/-- Modelled from the spec: the spec's `MalformedObject` error category,
which the source realizes as `raise Exception("Malformed object ...")`
in `object_read`; used to compare the KVLM parser's actual failure
against the category the spec prescribes for it. -/
def isMalformedObjectError : PyErr → Bool
  | .exception m => "Malformed object".toList.isPrefixOf m.toList
  | _ => false

/-- The object-store path derived for `sha`, as `object_write`/`object_read`
compute it for a repository with metadata directory `g`. -/
def shaPath (g sha : String) : String :=
  repo_path ⟨g, []⟩ ["objects", strTake sha 2, strDrop sha 2]

/-! ### Concrete fixtures -/

/-- A minimal well-formed KVLM input: one header line and a message. -/
def kvlmSample : Bytes := asciiBytes "tree abc\n\nhello\n"

/-- A header with two `parent` lines. -/
def kvlmTwoParents : Bytes := asciiBytes "parent bbbb\nparent cccc\n\nmerge\n"

/-- The blob holding the six bytes `hello\n` (with `blobdata` set, as
`GitBlob(b"hello\n")` leaves it). -/
def helloBlob : GitObject := .blob (some (asciiBytes "hello\n"))

/-- The repository state after writing `helloBlob` into `emptyRepo`. -/
def helloBlobRepo : Repo :=
  ⟨".git",
    [(objPath "ce013625030ba8dba906f756967f9e9ca394464a",
      zlibCompress (frameOf "blob" (asciiBytes "hello\n")))]⟩

/-- Tree entry named `bar` with a mode indicating a tree. -/
def barTreeLeaf : GitTreeLeaf :=
  ⟨asciiBytes "40000", "bar", String.mk (List.replicate 40 'a')⟩

/-- Tree entry named `bar.txt` with a mode indicating a regular file. -/
def barTxtLeaf : GitTreeLeaf :=
  ⟨asciiBytes "100644", "bar.txt", String.mk (List.replicate 40 'b')⟩

/-- Serialized tree payload with a single entry whose mode field has
five octal digits (`40000`). -/
def treeMode5Payload : Bytes := asciiBytes "40000 x" ++ [0] ++ List.replicate 20 170

/-- The leaf `tree_parse` produces for `treeMode5Payload`: the 5-digit
mode is left-padded with an ASCII space (byte 32), not a zero. -/
def leafMode5 : GitTreeLeaf :=
  ⟨32 :: asciiBytes "40000", "x", String.mk (List.replicate 40 'a')⟩

/-! ## Theorems -/

/-- C8 (counterexample): the codec is not the identity on the empty
payload — `GitObject.__init__` runs `deserialize` only when the data is
truthy (`if data:`), so `GitBlob(b"")` leaves `blobdata` unset and
`serialize()` raises `AttributeError` instead of returning `b""`. -/
theorem blob_codec_counterexample :
    mkBlob [] = .blob none ∧
    (objSerialize (mkBlob [])).2 = .error .attributeError ∧
    (objSerialize (mkBlob [])).2 ≠ .ok [] :=
  ⟨rfl, rfl, fun h => Except.noConfusion h⟩

/-- C8 (amended): deserializing a non-empty payload into a Blob
(`GitBlob(data)`, which runs `deserialize` since the data is truthy)
followed by `serialize` returns exactly the original payload bytes and
leaves the object unchanged. -/
theorem blob_codec_amended (data : Bytes) (h : data ≠ []) :
    objSerialize (mkBlob data) = (mkBlob data, .ok data) := by
  simp [mkBlob, objSerialize, h]

/-- Witness for `blob_codec_amended` at the payload `hello\n`. -/
theorem blob_codec_amended_witness :
    asciiBytes "hello\n" ≠ [] ∧
    objSerialize (mkBlob (asciiBytes "hello\n")) =
      (mkBlob (asciiBytes "hello\n"), .ok (asciiBytes "hello\n")) :=
  ⟨by decide, blob_codec_amended (asciiBytes "hello\n") (by decide)⟩

/-- C2 (failing evaluation): on the diamond-shaped history the traversal
raises `KeyError` at the very first commit — `GitCommit.__init__`
overwrites the deserialized KVLM with an empty dict, so the message
lookup `commit.kvlm[None]` fails before any node or edge is printed;
the same happens starting from the root.  The stored merge payload does
parse to a two-parent mapping, so the data itself is well-formed. -/
theorem log_graphviz_diamond_keyerror :
    log_graphviz diamondRepo 10 "aaaa" [] = .error .keyError ∧
    log_graphviz diamondRepo 10 "dddd" [] = .error .keyError ∧
    kvlm_parse (asciiBytes "parent bbbb\nparent cccc\n\nmerge\n") =
      .ok [(some (asciiBytes "parent"),
             .list [.bytes (asciiBytes "bbbb"), .bytes (asciiBytes "cccc")]),
           (none, .bytes (asciiBytes "merge\n"))] :=
  ⟨rfl, rfl, rfl⟩

/-- C3 (failing evaluation): reading a stored commit returns
`GitObject.commit []` — the constructor clobbers the deserializer's
result (which is the non-empty mapping shown) — and reading an identity
whose two-hex subdirectory does not exist fails with `TypeError`
(`os.path.isfile(None)`), not with the object-not-found error; the
object-not-found error does occur when the subdirectory exists. -/
theorem object_read_divergences :
    object_read diamondRepo "aaaa" = .ok (.commit []) ∧
    kvlm_parse (asciiBytes "parent bbbb\nparent cccc\n\nmerge\n") =
      .ok [(some (asciiBytes "parent"),
             .list [.bytes (asciiBytes "bbbb"), .bytes (asciiBytes "cccc")]),
           (none, .bytes (asciiBytes "merge\n"))] ∧
    [(some (asciiBytes "parent"),
       PyVal.list [.bytes (asciiBytes "bbbb"), .bytes (asciiBytes "cccc")]),
     (none, PyVal.bytes (asciiBytes "merge\n"))] ≠ ([] : Dict) ∧
    object_read emptyRepo "aaaa" = .error .typeError ∧
    object_read diamondRepo "aaab" = .error (.exception "Object aaab not found!") :=
  ⟨rfl, rfl, by simp, rfl, rfl⟩

set_option maxRecDepth 40000 in
/-- C4: writing the blob `hello\n` returns the SHA-1 hex digest of the
frame `blob 6\x00hello\n`, with or without a repository target, and
reading that identity back yields an object serializing to `hello\n`. -/
theorem blob_hello_identity :
    frameOf "blob" (asciiBytes "hello\n") = asciiBytes "blob 6" ++ [0] ++ asciiBytes "hello\n" ∧
    sha1Hex (asciiBytes "blob 6" ++ [0] ++ asciiBytes "hello\n") =
      "ce013625030ba8dba906f756967f9e9ca394464a" ∧
    object_write helloBlob none =
      .ok ("ce013625030ba8dba906f756967f9e9ca394464a", helloBlob, none) ∧
    object_write helloBlob (some emptyRepo) =
      .ok ("ce013625030ba8dba906f756967f9e9ca394464a", helloBlob, some helloBlobRepo) ∧
    (do
      let o ← object_read helloBlobRepo "ce013625030ba8dba906f756967f9e9ca394464a"
      (objSerialize o).2) = Except.ok (asciiBytes "hello\n") :=
  ⟨rfl, rfl, rfl, rfl, rfl⟩

/-- C7: tree serialization sorts by the composite key (path, with `/`
appended for non-blob modes); concretely `bar.txt` (blob) is emitted
before `bar` (tree) because `bar.txt < bar/`; and the sorted order is
established for every tree. -/
theorem tree_ordering_bar :
    tree_leaf_sort_key barTreeLeaf = "bar/" ∧
    tree_leaf_sort_key barTxtLeaf = "bar.txt" ∧
    (tree_serialize ⟨[barTreeLeaf, barTxtLeaf]⟩).1.items = [barTxtLeaf, barTreeLeaf] ∧
    (tree_serialize ⟨[barTreeLeaf, barTxtLeaf]⟩).2 =
      .ok (asciiBytes "100644 bar.txt" ++ [0] ++ List.replicate 20 187 ++
           (asciiBytes "40000 bar" ++ [0] ++ List.replicate 20 170)) ∧
    ∀ t : GitTree, List.Sorted treeLeafLe (tree_serialize t).1.items :=
  ⟨rfl, rfl, by rfl, by rfl, fun t => List.sorted_insertionSort treeLeafLe t.items⟩

/-- C10: `tree_serialize` sorts the object's own entry list in place by
the composite key: afterwards the entries are in canonical order, they
are a permutation of the originals (each entry itself unchanged), and a
second serialization of the mutated object is byte-identical and leaves
it untouched. -/
theorem tree_serialize_frame_effect (t : GitTree) :
    List.Sorted treeLeafLe (tree_serialize t).1.items ∧
    List.Perm (tree_serialize t).1.items t.items ∧
    tree_serialize ((tree_serialize t).1) = tree_serialize t := by
  have h : List.insertionSort treeLeafLe (List.insertionSort treeLeafLe t.items) =
      List.insertionSort treeLeafLe t.items :=
    List.Sorted.insertionSort_eq (List.sorted_insertionSort treeLeafLe t.items)
  refine ⟨List.sorted_insertionSort treeLeafLe t.items,
    List.perm_insertionSort treeLeafLe t.items, ?_⟩
  simp only [tree_serialize, h]

/-- C1 (counterexample): the round-trip law fails — re-parsing the
serialization of `parse("tree abc\n\nhello\n")` yields the same header
entry but message `hello\n\n` instead of `hello\n` (the serializer
appends a newline after the stored message). -/
theorem kvlm_roundtrip_counterexample :
    kvlm_parse kvlmSample =
      .ok [(some (asciiBytes "tree"), .bytes (asciiBytes "abc")),
           (none, .bytes (asciiBytes "hello\n"))] ∧
    (do
      let d ← kvlm_parse kvlmSample
      let s ← kvlm_serialize d
      kvlm_parse s) =
      .ok [(some (asciiBytes "tree"), .bytes (asciiBytes "abc")),
           (none, .bytes (asciiBytes "hello\n\n"))] ∧
    asciiBytes "hello\n\n" ≠ asciiBytes "hello\n" :=
  ⟨rfl, rfl, by decide⟩

/-- C6 (counterexample): a parsed 5-digit mode `40000` is stored
space-padded (byte 32, not the digit `0`), and serialization re-emits
those stored bytes, so the entry starts with `" 40000"` rather than the
`"040000"` the claim states. -/
theorem tree_mode_padding_counterexample :
    tree_parse treeMode5Payload = .ok [leafMode5] ∧
    (tree_serialize ⟨[leafMode5]⟩).2 =
      .ok ([32] ++ asciiBytes "40000 x" ++ [0] ++ List.replicate 20 170) ∧
    ([32] ++ asciiBytes "40000") ≠ asciiBytes "040000" :=
  ⟨rfl, rfl, by decide⟩

/-- C9 (counterexample): when the blank-line check fails the parser
raises a bare `AssertionError`, which is not the `MalformedObject`
error category (`Exception("Malformed object ...")`) the claim
names. -/
theorem kvlm_assert_counterexample :
    kvlm_parse (asciiBytes "x") = .error .assertionError ∧
    isMalformedObjectError .assertionError = false :=
  ⟨rfl, rfl⟩

/-! ### Library lemmas about the Python primitives -/

theorem findIdx_none (c : Nat) (l : Bytes) (h : c ∉ l) :
    List.findIdx? (fun x => x = c) l = none := by
  rw [List.findIdx?_eq_none_iff]
  intro x hx
  simp only [decide_eq_false_iff_not]
  rintro rfl
  exact h hx

theorem findIdx_first (c : Nat) (u v : Bytes) (hu : c ∉ u) :
    List.findIdx? (fun x => x = c) (u ++ c :: v) = some u.length := by
  rw [List.findIdx?_append, findIdx_none c u hu, Option.none_or, List.findIdx?_cons]
  simp

theorem pyIdx_nat (n k : Nat) (hk : k ≤ n) : pyIdx n (k : Int) = k := by
  unfold pyIdx
  rw [if_neg (by omega), Int.toNat_natCast]
  exact Nat.min_eq_left hk

theorem pyFind_spec (s : Bytes) (c : Nat) (k : Nat) (u v : Bytes)
    (hk : s.drop k = u ++ c :: v) (hku : k ≤ s.length) (hu : c ∉ u) :
    pyFind s c k = ((k + u.length : Nat) : Int) := by
  simp only [pyFind]
  rw [pyIdx_nat _ _ hku, hk, findIdx_first c u v hu]

theorem pyFind_not_found (s : Bytes) (c : Nat) (k : Nat)
    (hk : k ≤ s.length) (h : c ∉ s.drop k) : pyFind s c k = -1 := by
  simp only [pyFind]
  rw [pyIdx_nat _ _ hk, findIdx_none c _ h]

theorem pySlice_spec (P mid S : Bytes) :
    pySlice (P ++ mid ++ S) (P.length : Int) ((P.length + mid.length : Nat) : Int) = mid := by
  unfold pySlice
  have h1 : P.length ≤ (P ++ mid ++ S).length := by simp
  have h2 : P.length + mid.length ≤ (P ++ mid ++ S).length := by simp
  rw [pyIdx_nat _ _ h1, pyIdx_nat _ _ h2, ← List.length_append P mid, List.take_left,
    List.drop_left]

theorem pySliceFrom_spec (P S : Bytes) :
    pySliceFrom (P ++ S) (P.length : Int) = S := by
  unfold pySliceFrom
  rw [pyIdx_nat _ _ (by simp), List.drop_left]

theorem pyGet_spec (P : Bytes) (b : Nat) (S : Bytes) :
    pyGet (P ++ b :: S) (P.length : Int) = .ok b := by
  have h0 : ¬ ((P.length : Int) < 0) := by omega
  simp only [pyGet, if_neg h0, Int.toNat_natCast, List.get?_eq_getElem?,
    List.getElem?_append_right (Nat.le_refl P.length), Nat.sub_self,
    List.getElem?_cons_zero]

/-- C9 (amended): whenever the base case is entered with the cursor not
exactly at a newline, `kvlm_parse` fails — with a bare `AssertionError`,
which is not the `MalformedObject` category — and never returns a
(partial) mapping. -/
theorem kvlm_assert_amended (raw : Bytes) (start : Nat) (dct : Dict) (fuel : Nat)
    (hbase : pyFind raw 32 start < 0 ∨ pyFind raw 10 start < pyFind raw 32 start)
    (hnl : pyFind raw 10 start ≠ (start : Int)) :
    kvlmParseGo raw (fuel + 1) start dct = .error .assertionError ∧
    isMalformedObjectError .assertionError = false := by
  refine ⟨?_, rfl⟩
  simp only [kvlmParseGo, if_pos hbase, if_neg hnl]

/-- C9 witness: the amended theorem at the concrete input `"x"`. -/
theorem kvlm_assert_amended_witness :
    kvlm_parse (asciiBytes "x") = .error .assertionError ∧
    isMalformedObjectError .assertionError = false :=
  kvlm_assert_amended (asciiBytes "x") 0 [] 1 (by decide) (by decide)

theorem pySlice_drop (s : Bytes) (a m : Nat) (mid rest : Bytes)
    (h : s.drop a = mid ++ rest) (hm : mid.length = m) (ha : a + m ≤ s.length) :
    pySlice s (a : Int) ((a + m : Nat) : Int) = mid := by
  simp only [pySlice]
  rw [pyIdx_nat _ _ (le_trans (Nat.le_add_right a m) ha), pyIdx_nat _ _ ha,
    List.drop_take, Nat.add_sub_cancel_left, h, List.take_left' hm]

theorem pySliceFrom_drop (s : Bytes) (a : Nat) (ha : a ≤ s.length) :
    pySliceFrom s (a : Int) = s.drop a := by
  simp only [pySliceFrom]
  rw [pyIdx_nat _ _ ha]

theorem pyGet_drop (s : Bytes) (j b : Nat) (rest : Bytes) (h : s.drop j = b :: rest) :
    pyGet s (j : Int) = .ok b := by
  have h0 : ¬ ((j : Int) < 0) := by omega
  have hj : s[j]? = some b := by
    have hd := List.getElem?_drop s j 0
    rw [h] at hd
    simpa using hd.symm
  simp only [pyGet, if_neg h0, Int.toNat_natCast, List.get?_eq_getElem?, hj]

theorem tree_parse_one_spec (P modeB pathB rest : Bytes) (pstr : String)
    (hmode : modeB.length = 5 ∨ modeB.length = 6)
    (hm32 : 32 ∉ modeB)
    (hp0 : (0 : Nat) ∉ pathB)
    (hrest : 20 ≤ rest.length)
    (hdec : utf8Decode pathB = .ok pstr) :
    tree_parse_one (P ++ (modeB ++ (32 :: (pathB ++ 0 :: rest)))) P.length =
      .ok (P.length + modeB.length + 1 + pathB.length + 1 + 20,
        ⟨if modeB.length = 5 then 32 :: modeB else modeB, pstr,
         toHexFixed 40 (beToNat (rest.take 20))⟩) := by
  have d1 : (P ++ (modeB ++ (32 :: (pathB ++ 0 :: rest)))).drop P.length =
      modeB ++ 32 :: (pathB ++ 0 :: rest) := List.drop_left P _
  have hx : pyFind (P ++ (modeB ++ (32 :: (pathB ++ 0 :: rest)))) 32 P.length =
      ((P.length + modeB.length : Nat) : Int) :=
    pyFind_spec _ 32 P.length modeB (pathB ++ 0 :: rest) d1 (by simp) hm32
  have d2 : (P ++ (modeB ++ (32 :: (pathB ++ 0 :: rest)))).drop (P.length + modeB.length) =
      32 :: (pathB ++ 0 :: rest) := by
    rw [← List.drop_drop, d1]
    exact List.drop_left modeB _
  have d2' : (P ++ (modeB ++ (32 :: (pathB ++ 0 :: rest)))).drop (P.length + modeB.length) =
      (32 :: pathB) ++ 0 :: rest := by
    rw [List.cons_append]
    exact d2
  have hy : pyFind (P ++ (modeB ++ (32 :: (pathB ++ 0 :: rest)))) 0
      ((P.length + modeB.length : Nat) : Int) =
      (((P.length + modeB.length) + (pathB.length + 1) : Nat) : Int) := by
    have := pyFind_spec _ 0 (P.length + modeB.length) (32 :: pathB) rest d2'
      (by simp) (by simp [hp0])
    simpa using this
  have d3 : (P ++ (modeB ++ (32 :: (pathB ++ 0 :: rest)))).drop (P.length + modeB.length + 1) =
      pathB ++ 0 :: rest := by
    rw [← List.drop_drop, d2]
    simp
  have d4 : (P ++ (modeB ++ (32 :: (pathB ++ 0 :: rest)))).drop
      ((P.length + modeB.length + 1 + pathB.length) + 1) = rest := by
    have he : (P.length + modeB.length + 1 + pathB.length) + 1 =
        (P.length + modeB.length + 1) + (pathB.length + 1) := by omega
    rw [he, ← List.drop_drop, d3, ← List.drop_drop, List.drop_left' rfl]
    simp
  simp only [tree_parse_one, hx]
  rw [if_pos (by push_cast; omega)]
  have hslice1 : pySlice (P ++ (modeB ++ (32 :: (pathB ++ 0 :: rest))))
      P.length ((P.length + modeB.length : Nat) : Int) = modeB := by
    refine pySlice_drop _ P.length modeB.length modeB _ d1 rfl (by simp)
  rw [hslice1, hy]
  have hc1 : (((P.length + modeB.length : Nat) : Int) + 1) =
      ((P.length + modeB.length + 1 : Nat) : Int) := by push_cast; ring
  have hc2 : (((P.length + modeB.length) + (pathB.length + 1) : Nat) : Int) =
      (((P.length + modeB.length + 1) + pathB.length : Nat) : Int) := by push_cast; ring
  rw [hc1, hc2]
  have hslice2 : pySlice (P ++ (modeB ++ (32 :: (pathB ++ 0 :: rest))))
      ((P.length + modeB.length + 1 : Nat) : Int)
      (((P.length + modeB.length + 1) + pathB.length : Nat) : Int) = pathB :=
    pySlice_drop _ (P.length + modeB.length + 1) pathB.length pathB _ d3 rfl
      (by simp; omega)
  rw [hslice2, hdec]
  have hc4 : ((((P.length + modeB.length + 1) + pathB.length : Nat) : Int) + 1) =
      (((P.length + modeB.length + 1 + pathB.length) + 1 : Nat) : Int) := by push_cast; ring
  have hc5 : ((((P.length + modeB.length + 1) + pathB.length : Nat) : Int) + 21) =
      ((((P.length + modeB.length + 1 + pathB.length) + 1) + 20 : Nat) : Int) := by
    push_cast; ring
  rw [hc4, hc5]
  have hslice3 : pySlice (P ++ (modeB ++ (32 :: (pathB ++ 0 :: rest))))
      (((P.length + modeB.length + 1 + pathB.length) + 1 : Nat) : Int)
      ((((P.length + modeB.length + 1 + pathB.length) + 1) + 20 : Nat) : Int) =
      rest.take 20 := by
    refine pySlice_drop _ _ 20 (rest.take 20) (rest.drop 20) ?_ ?_ ?_
    · rw [d4]
      exact (List.take_append_drop 20 rest).symm
    · rw [List.length_take]
      omega
    · simp
      omega
  rw [hslice3]
  simp only [Int.toNat_natCast]

theorem treeEmit_cons (leaf : GitTreeLeaf) (rest : List GitTreeLeaf) (n : Nat)
    (shaB tail : Bytes)
    (h1 : hexToNat leaf.sha = .ok n) (h2 : toBytesBE 20 n = .ok shaB)
    (h3 : treeEmit rest = .ok tail) :
    treeEmit (leaf :: rest) =
      .ok (leaf.mode ++ [32] ++ utf8Encode leaf.path ++ [0] ++ shaB ++ tail) := by
  simp only [treeEmit, h1, h2, h3]
  rfl

/-- C6 (amended): tree entry parsing accepts a 5- or 6-byte mode field
(terminated by the first space); a 5-byte mode is normalized by
left-padding with one ASCII SPACE — not a zero — to six bytes, and
serialization emits the stored mode field verbatim followed by space,
UTF-8 path, NUL and the 20 raw identity bytes.  In particular the
parsed 5-digit mode `40000` is re-emitted as the six bytes `" 40000"`,
not `"040000"`. -/
theorem tree_mode_padding_amended :
    (∀ (P modeB pathB rest : Bytes) (pstr : String),
      (modeB.length = 5 ∨ modeB.length = 6) → 32 ∉ modeB → (0 : Nat) ∉ pathB →
      20 ≤ rest.length → utf8Decode pathB = .ok pstr →
      tree_parse_one (P ++ (modeB ++ (32 :: (pathB ++ 0 :: rest)))) P.length =
        .ok (P.length + modeB.length + 1 + pathB.length + 1 + 20,
          ⟨if modeB.length = 5 then 32 :: modeB else modeB, pstr,
           toHexFixed 40 (beToNat (rest.take 20))⟩)) ∧
    (∀ (leaf : GitTreeLeaf) (rest : List GitTreeLeaf) (n : Nat) (shaB tail : Bytes),
      hexToNat leaf.sha = .ok n → toBytesBE 20 n = .ok shaB → treeEmit rest = .ok tail →
      treeEmit (leaf :: rest) =
        .ok (leaf.mode ++ [32] ++ utf8Encode leaf.path ++ [0] ++ shaB ++ tail)) ∧
    tree_parse treeMode5Payload = .ok [leafMode5] ∧
    (tree_serialize ⟨[leafMode5]⟩).2 =
      .ok ([32] ++ asciiBytes "40000 x" ++ [0] ++ List.replicate 20 170) :=
  ⟨fun P modeB pathB rest pstr h1 h2 h3 h4 h5 =>
      tree_parse_one_spec P modeB pathB rest pstr h1 h2 h3 h4 h5,
    fun leaf rest n shaB tail h1 h2 h3 => treeEmit_cons leaf rest n shaB tail h1 h2 h3,
    by rfl, by rfl⟩

/-- C6 witness: the amended theorem applied at the concrete 5-digit-mode
entry. -/
theorem tree_mode_padding_amended_witness :
    tree_parse_one treeMode5Payload 0 = .ok (28, leafMode5) ∧
    treeEmit [leafMode5] =
      .ok ([32] ++ asciiBytes "40000 x" ++ [0] ++ List.replicate 20 170) :=
  ⟨tree_mode_padding_amended.1 [] (asciiBytes "40000") [120] (List.replicate 20 170) "x"
      (by decide) (by decide) (by decide) (by decide) (by rfl),
    tree_mode_padding_amended.2.1 leafMode5 [] (beToNat (List.replicate 20 170))
      (List.replicate 20 170) [] (by rfl) (by rfl) rfl⟩

theorem fileAt_cons_self (g : String) (p : String) (b : Bytes) (fs : List (String × Bytes)) :
    fileAt ⟨g, (p, b) :: fs⟩ p = some b := by
  simp [fileAt]

theorem fileAt_cons_ne (g : String) (p q : String) (b : Bytes) (fs : List (String × Bytes))
    (h : p ≠ q) : fileAt ⟨g, (p, b) :: fs⟩ q = fileAt ⟨g, fs⟩ q := by
  simp [fileAt, List.find?_cons, h]

theorem countAt_cons_self (g : String) (p : String) (b : Bytes) (fs : List (String × Bytes)) :
    countAt ⟨g, (p, b) :: fs⟩ p = countAt ⟨g, fs⟩ p + 1 := by
  simp [countAt, List.countP_cons]

theorem countAt_eq_zero (r : Repo) (p : String) (h : fileAt r p = none) :
    countAt r p = 0 := by
  rcases r with ⟨g, fs⟩
  simp only [fileAt] at h
  have h2 : List.find? (fun e => decide (e.1 = p)) fs = none := by
    cases hf : List.find? (fun e => decide (e.1 = p)) fs with
    | none => rfl
    | some v => rw [hf] at h; simp at h
  rw [List.find?_eq_none] at h2
  simp only [countAt, List.countP_eq_zero]
  exact h2

theorem append_slash_ne (s c : String) : s ++ "/" ++ c ≠ s := by
  intro h
  have hl := congrArg String.length h
  rw [String.length_append, String.length_append] at hl
  have : ("/" : String).length = 1 := rfl
  omega

theorem objSerialize_idem (o o' : GitObject) (data : Bytes)
    (h : objSerialize o = (o', .ok data)) : objSerialize o' = (o', .ok data) := by
  cases o with
  | blob bd =>
    cases bd with
    | none => simp [objSerialize] at h
    | some d =>
      simp only [objSerialize, Prod.mk.injEq, Except.ok.injEq] at h
      obtain ⟨h1, h2⟩ := h
      subst h1
      simp [objSerialize, h2]
  | commit kv =>
    simp only [objSerialize, Prod.mk.injEq] at h
    obtain ⟨h1, h2⟩ := h
    subst h1
    simp [objSerialize, h2]
  | tag kv =>
    simp only [objSerialize, Prod.mk.injEq] at h
    obtain ⟨h1, h2⟩ := h
    subst h1
    simp [objSerialize, h2]
  | tree t =>
    simp only [objSerialize, tree_serialize, Prod.mk.injEq] at h
    obtain ⟨h1, h2⟩ := h
    subst h1
    simp only [objSerialize, tree_serialize,
      List.Sorted.insertionSort_eq (List.sorted_insertionSort treeLeafLe t.items), h2]

/-- C5: write idempotence.  If a write into repository state `r`
succeeds, returning identity `sha`, mutated object `o'` and state `r'`,
then: writing `o'` again returns the same identity and leaves the state
unchanged; if the object file already existed the first write was
already a no-op (`r' = r`, bytes never rewritten); and if the file did
not exist (and nothing occupies its path as a directory) the first
write created exactly one file there (count goes from 0 to 1, and the
second write leaves it at 1). -/
theorem object_write_idempotent (o o' : GitObject) (r r' : Repo) (sha : String)
    (h : object_write o (some r) = .ok (sha, o', some r')) :
    object_write o' (some r') = .ok (sha, o', some r') ∧
    (fileAt r (repo_path r ["objects", strTake sha 2, strDrop sha 2]) ≠ none → r' = r) ∧
    (fileAt r (repo_path r ["objects", strTake sha 2, strDrop sha 2]) = none →
      dirAt r (repo_path r ["objects", strTake sha 2, strDrop sha 2]) = false →
      countAt r (repo_path r ["objects", strTake sha 2, strDrop sha 2]) = 0 ∧
      countAt r' (repo_path r ["objects", strTake sha 2, strDrop sha 2]) = 1) := by
  rcases hs : objSerialize o with ⟨o₀, res⟩
  cases res with
  | error e =>
    simp only [object_write, hs] at h
    exact Except.noConfusion h
  | ok data =>
    simp only [object_write, hs] at h
    generalize hframe :
      objFmt o₀ ++ [32] ++ asciiBytes (natToDecStr data.length) ++ [0] ++ data = frame at h
    generalize hsha : sha1Hex frame = shaV at h
    have hs' : objSerialize o₀ = (o₀, .ok data) := objSerialize_idem o o₀ data hs
    by_cases hdir : fileAt r (repo_path r ["objects", strTake shaV 2]) = none
    · have hrf : repo_file r ["objects", strTake shaV 2, strDrop shaV 2] true =
          .ok (some (repo_path r ["objects", strTake shaV 2, strDrop shaV 2])) := by
        simp only [repo_file, repo_dir, List.dropLast, hdir, Option.isSome_none,
          Bool.false_eq_true, if_false]
        split_ifs <;> rfl
      simp only [hrf] at h
      by_cases hex :
          ((fileAt r (repo_path r ["objects", strTake shaV 2, strDrop shaV 2])).isSome ||
            dirAt r (repo_path r ["objects", strTake shaV 2, strDrop shaV 2])) = true
      · rw [if_pos hex] at h
        simp only [Except.ok.injEq, Prod.mk.injEq, Option.some.injEq] at h
        obtain ⟨h1, h2, h3⟩ := h
        subst h1
        subst h2
        subst h3
        refine ⟨?_, fun _ => rfl, ?_⟩
        · simp only [object_write, hs', hframe, hsha, hrf]
          rw [if_pos hex]
        · intro h1 h2
          rw [h1, h2] at hex
          simp at hex
      · rw [if_neg hex] at h
        simp only [Except.ok.injEq, Prod.mk.injEq, Option.some.injEq] at h
        obtain ⟨h1, h2, h3⟩ := h
        subst h1
        subst h2
        rw [Bool.or_eq_true, not_or, Bool.not_eq_true, Bool.not_eq_true] at hex
        obtain ⟨hsome, hndir⟩ := hex
        have hnone : fileAt r (repo_path r ["objects", strTake shaV 2, strDrop shaV 2]) = none := by
          cases hF : fileAt r (repo_path r ["objects", strTake shaV 2, strDrop shaV 2]) with
          | none => rfl
          | some v => rw [hF] at hsome; simp at hsome
        have hpne : repo_path r ["objects", strTake shaV 2] ++ "/" ++ strDrop shaV 2 ≠
            repo_path r ["objects", strTake shaV 2] :=
          append_slash_ne _ _
        refine ⟨?_, fun hc => absurd hnone hc, fun _ _ => ?_⟩
        · simp only [object_write, hs', hframe, hsha]
          have hrf' : repo_file r' ["objects", strTake shaV 2, strDrop shaV 2] true =
              .ok (some (repo_path r' ["objects", strTake shaV 2, strDrop shaV 2])) := by
            subst h3
            simp only [repo_file, repo_dir, List.dropLast]
            have hfd : fileAt ⟨r.gitdir,
                (repo_path r ["objects", strTake shaV 2, strDrop shaV 2],
                  zlibCompress frame) :: r.files⟩
                (repo_path r ["objects", strTake shaV 2]) =
                fileAt r (repo_path r ["objects", strTake shaV 2]) :=
              fileAt_cons_ne _ _ _ _ _ hpne
            rw [show repo_path (⟨r.gitdir,
                (repo_path r ["objects", strTake shaV 2, strDrop shaV 2],
                  zlibCompress frame) :: r.files⟩ : Repo) ["objects", strTake shaV 2] =
                repo_path r ["objects", strTake shaV 2] from rfl]
            rw [hfd, hdir]
            simp only [Option.isSome_none, Bool.false_eq_true, if_false]
            split_ifs <;> rfl
          simp only [hrf']
          have hself : fileAt r' (repo_path r' ["objects", strTake shaV 2, strDrop shaV 2]) =
              some (zlibCompress frame) := by
            subst h3
            exact fileAt_cons_self _ _ _ _
          rw [if_pos (by rw [hself]; simp)]
        · subst h3
          refine ⟨countAt_eq_zero r _ hnone, ?_⟩
          rw [show (⟨r.gitdir,
              (repo_path r ["objects", strTake shaV 2, strDrop shaV 2],
                zlibCompress frame) :: r.files⟩ : Repo) =
              (⟨r.gitdir,
              (repo_path r ["objects", strTake shaV 2, strDrop shaV 2],
                zlibCompress frame) :: r.files⟩ : Repo) from rfl,
            countAt_cons_self, countAt_eq_zero r _ hnone]
    · have hrf : repo_file r ["objects", strTake shaV 2, strDrop shaV 2] true =
          .error (.exception ("Not a directory " ++ repo_path r ["objects", strTake shaV 2])) := by
        simp only [repo_file, repo_dir, List.dropLast]
        rw [if_pos (by rw [Option.isSome_iff_ne_none]; exact hdir)]
      simp only [hrf] at h
      exact Except.noConfusion h

set_option maxRecDepth 80000 in
/-- C5 witness: writing the `hello\n` blob into the empty repository and
then writing the result again — same identity, unchanged state, exactly
one object file. -/
theorem object_write_idempotent_witness :
    object_write helloBlob (some helloBlobRepo) =
      .ok ("ce013625030ba8dba906f756967f9e9ca394464a", helloBlob, some helloBlobRepo) ∧
    countAt helloBlobRepo (objPath "ce013625030ba8dba906f756967f9e9ca394464a") = 1 := by
  have h := object_write_idempotent helloBlob helloBlob emptyRepo helloBlobRepo
    "ce013625030ba8dba906f756967f9e9ca394464a" (by rfl)
  exact ⟨h.1, (h.2.2 (by rfl) (by rfl)).2⟩

theorem pyFind_int (s : Bytes) (c : Nat) (e : Int) (u v : Bytes)
    (h0 : 0 ≤ e) (hk : s.drop e.toNat = u ++ c :: v) (hku : e.toNat ≤ s.length)
    (hu : c ∉ u) : pyFind s c e = ((e.toNat + u.length : Nat) : Int) := by
  have he : e = ((e.toNat : Nat) : Int) := by omega
  rw [he, Int.toNat_natCast]
  exact pyFind_spec s c e.toNat u v hk hku hu

theorem pyGet_int (s : Bytes) (e : Int) (b : Nat) (rest : Bytes) (h0 : 0 ≤ e)
    (h : s.drop e.toNat = b :: rest) : pyGet s e = .ok b := by
  have he : e = ((e.toNat : Nat) : Int) := by omega
  rw [he]
  exact pyGet_drop s e.toNat b rest h

theorem escGo_eq (f : Nat) : ∀ (v : Bytes), v.length ≤ f →
    pyReplaceGo [10] [10, 32] f v = escSpec v := by
  induction f with
  | zero =>
    intro v hv
    cases v with
    | nil => rfl
    | cons c t => simp at hv
  | succ f ih =>
    intro v hv
    cases v with
    | nil => rfl
    | cons c t =>
      have ht : pyReplaceGo [10] [10, 32] f t = escSpec t :=
        ih t (by simp at hv; omega)
      by_cases hc : c = 10
      · subst hc
        simp [pyReplaceGo, escSpec, List.isPrefixOf, ht]
      · simp [pyReplaceGo, escSpec, List.isPrefixOf, hc, Ne.symm hc, ht]

theorem esc_eq (v : Bytes) : pyReplace [10] [10, 32] v = escSpec v :=
  escGo_eq v.length v le_rfl

theorem unescGo_eq (f : Nat) : ∀ (v : Bytes), v.length ≤ f →
    pyReplaceGo [10, 32] [10] f v = unescSpec v := by
  induction f with
  | zero =>
    intro v hv
    cases v with
    | nil => rfl
    | cons c t => simp at hv
  | succ f ih =>
    intro v hv
    cases v with
    | nil => rfl
    | cons c t =>
      cases t with
      | nil => simp [pyReplaceGo, unescSpec, List.isPrefixOf]
      | cons c2 t2 =>
        by_cases hc : c = 10
        · subst hc
          by_cases hc2 : c2 = 32
          · subst hc2
            have ht : pyReplaceGo [10, 32] [10] f t2 = unescSpec t2 :=
              ih t2 (by simp at hv; omega)
            simp [pyReplaceGo, unescSpec, List.isPrefixOf, ht]
          · have ht : pyReplaceGo [10, 32] [10] f (c2 :: t2) = unescSpec (c2 :: t2) :=
              ih (c2 :: t2) (by simp only [List.length_cons] at hv ⊢; omega)
            simp [pyReplaceGo, unescSpec, List.isPrefixOf, hc2, Ne.symm hc2, ht]
        · have ht : pyReplaceGo [10, 32] [10] f (c2 :: t2) = unescSpec (c2 :: t2) :=
            ih (c2 :: t2) (by simp only [List.length_cons] at hv ⊢; omega)
          simp [pyReplaceGo, unescSpec, List.isPrefixOf, hc, Ne.symm hc, ht]

theorem unesc_eq (v : Bytes) : pyReplace [10, 32] [10] v = unescSpec v :=
  unescGo_eq v.length v le_rfl

theorem unesc_esc (v : Bytes) : unescSpec (escSpec v) = v := by
  induction v with
  | nil => rfl
  | cons c t ih =>
    by_cases hc : c = 10
    · subst hc
      simp [escSpec, unescSpec, ih]
    · simp only [escSpec, if_neg hc]
      cases he : escSpec t with
      | nil =>
        rw [he] at ih
        rw [← ih]
        simp [unescSpec]
      | cons d u =>
        rw [he] at ih
        simp [unescSpec, hc, ih]

set_option maxHeartbeats 1000000 in
theorem kvlmScan_ok (v : Bytes) :
    ∀ (A R : Bytes) (b : Nat) (f : Nat) (e0 : Int),
    b ≠ 32 → 0 ≤ e0 + 1 → e0 + 1 ≤ (A.length : Int) →
    (10 : Nat) ∉ A.drop (e0 + 1).toNat →
    v.count 10 < f →
    kvlmScan (A ++ (escSpec v ++ (10 :: (b :: R)))) f e0 =
      .ok ((A.length + (escSpec v).length : Nat) : Int) := by
  induction v with
  | nil =>
    intro A R b f e0 hb h0 hA hno hf
    cases f with
    | zero => simp at hf
    | succ f =>
      simp only [escSpec, List.nil_append, kvlmScan]
      have hfind : pyFind (A ++ 10 :: (b :: R)) 10 (e0 + 1) = ((A.length : Nat) : Int) := by
        have hd : (A ++ 10 :: (b :: R)).drop (e0 + 1).toNat =
            A.drop (e0 + 1).toNat ++ 10 :: (b :: R) :=
          List.drop_append_of_le_length (by omega)
        rw [pyFind_int (A ++ 10 :: (b :: R)) 10 (e0 + 1) (A.drop (e0 + 1).toNat)
          (b :: R) h0 hd (by simp; omega) hno]
        congr 1
        rw [List.length_drop]
        omega
      simp only [hfind]
      have hget : pyGet (A ++ 10 :: (b :: R)) ((A.length : Int) + 1) = .ok b := by
        apply pyGet_int _ _ b R (by omega)
        have ht : ((A.length : Int) + 1).toNat = A.length + 1 := by omega
        rw [ht, ← List.drop_drop, List.drop_left]
        rfl
      simp only [hget]
      rw [if_pos hb]
      simp
  | cons c t ih =>
    intro A R b f e0 hb h0 hA hno hf
    by_cases hc : c = 10
    · subst hc
      cases f with
      | zero => simp at hf
      | succ f =>
        have hesc : escSpec (10 :: t) = 10 :: 32 :: escSpec t := by simp [escSpec]
        rw [hesc]
        simp only [List.cons_append, kvlmScan]
        have hfind : pyFind (A ++ 10 :: 32 :: (escSpec t ++ 10 :: (b :: R))) 10 (e0 + 1) =
            ((A.length : Nat) : Int) := by
          have hd : (A ++ 10 :: 32 :: (escSpec t ++ 10 :: (b :: R))).drop (e0 + 1).toNat =
              A.drop (e0 + 1).toNat ++ 10 :: (32 :: (escSpec t ++ 10 :: (b :: R))) :=
            List.drop_append_of_le_length (by omega)
          rw [pyFind_int _ 10 (e0 + 1) (A.drop (e0 + 1).toNat) _ h0 hd (by simp; omega) hno]
          congr 1
          rw [List.length_drop]
          omega
        simp only [hfind]
        have hget : pyGet (A ++ 10 :: 32 :: (escSpec t ++ 10 :: (b :: R)))
            ((A.length : Int) + 1) = .ok 32 := by
          apply pyGet_int _ _ 32 (escSpec t ++ 10 :: (b :: R)) (by omega)
          have ht : ((A.length : Int) + 1).toNat = A.length + 1 := by omega
          rw [ht, ← List.drop_drop, List.drop_left]
          rfl
        simp only [hget]
        rw [if_neg (by simp)]
        have harr : A ++ 10 :: 32 :: (escSpec t ++ 10 :: (b :: R)) =
            (A ++ [10, 32]) ++ (escSpec t ++ 10 :: (b :: R)) := by simp
        rw [harr]
        have hrec := ih (A ++ [10, 32]) R b f ((A.length : Nat) : Int) hb (by omega)
          (by simp)
          (by
            have ht : (((A.length : Nat) : Int) + 1).toNat = A.length + 1 := by omega
            rw [ht, List.drop_append]
            decide)
          (by simp [List.count_cons] at hf; omega)
        rw [hrec]
        congr 1
        simp [hesc]
        omega
    · have hesc : escSpec (c :: t) = c :: escSpec t := by simp [escSpec, hc]
      rw [hesc]
      simp only [List.cons_append]
      have harr : A ++ c :: (escSpec t ++ 10 :: (b :: R)) =
          (A ++ [c]) ++ (escSpec t ++ 10 :: (b :: R)) := by simp
      rw [harr]
      have hrec := ih (A ++ [c]) R b f e0 hb h0 (by simp; omega)
        (by
          have hd : (A ++ [c]).drop (e0 + 1).toNat = A.drop (e0 + 1).toNat ++ [c] :=
            List.drop_append_of_le_length (by omega)
          rw [hd]
          simp only [List.mem_append, List.mem_singleton]
          rintro (h | h)
          · exact hno h
          · exact hc h.symm)
        (by simp [List.count_cons, Ne.symm hc] at hf; omega)
      rw [hrec]
      congr 1
      simp
      omega

theorem dictSet_not_mem (d : Dict) (k : KvlmKey) (v : PyVal)
    (h : dictFind d k = none) : dictSet d k v = d ++ [(k, v)] := by
  induction d with
  | nil => rfl
  | cons e rest ih =>
    rcases e with ⟨k', v'⟩
    by_cases hk : k' = k
    · simp [dictFind, List.find?_cons, hk] at h
    · have h' : dictFind rest k = none := by
        simpa [dictFind, List.find?_cons, hk] using h
      simp only [dictSet, if_neg hk, List.cons_append, ih h']

theorem dictFind_append_singleton (d : Dict) (k k' : KvlmKey) (v : PyVal)
    (h : k' ≠ k) (hd : dictFind d k = none) :
    dictFind (d ++ [(k', v)]) k = none := by
  induction d with
  | nil => simp [dictFind, List.find?_cons, h]
  | cons e rest ih =>
    rcases e with ⟨k0, v0⟩
    by_cases hk : k0 = k
    · simp [dictFind, List.find?_cons, hk] at hd
    · have h' : dictFind rest k = none := by
        simpa [dictFind, List.find?_cons, hk] using hd
      simpa [dictFind, List.find?_cons, hk] using ih h'

theorem dictFind_map_none (hs : List (Bytes × Bytes)) :
    dictFind (hs.map kvlmEntry) none = none := by
  induction hs with
  | nil => rfl
  | cons e t ih => simp [dictFind, kvlmEntry, List.find?_cons, ih]

theorem pyFind_found_ge (s : Bytes) (c kk : Nat) (u w1 w2 : Bytes)
    (hd : s.drop kk = u ++ (w1 ++ c :: w2)) (hku : kk ≤ s.length) (hu : c ∉ u) :
    ((kk + u.length : Nat) : Int) ≤ pyFind s c kk ∧ 0 ≤ pyFind s c kk := by
  simp only [pyFind]
  rw [pyIdx_nat _ _ hku, hd, List.findIdx?_append, findIdx_none c u hu, Option.none_or]
  have hex : ∃ j, List.findIdx? (fun x => x = c) (w1 ++ c :: w2) = some j := by
    cases hfi : List.findIdx? (fun x => x = c) (w1 ++ c :: w2) with
    | some j => exact ⟨j, rfl⟩
    | none =>
      rw [List.findIdx?_eq_none_iff] at hfi
      have := hfi c (by simp)
      simp at this
  obtain ⟨j, hfi⟩ := hex
  rw [hfi]
  constructor
  · show ((kk + u.length : Nat) : Int) ≤ ((kk + (j + u.length) : Nat) : Int)
    push_cast
    omega
  · show (0 : Int) ≤ ((kk + (j + u.length) : Nat) : Int)
    push_cast
    omega

theorem pyFind_lower (s : Bytes) (c kk : Nat) (u w : Bytes)
    (hd : s.drop kk = u ++ w) (hku : kk ≤ s.length) (hu : c ∉ u) :
    pyFind s c kk = -1 ∨ ((kk + u.length : Nat) : Int) ≤ pyFind s c kk := by
  simp only [pyFind]
  rw [pyIdx_nat _ _ hku, hd, List.findIdx?_append, findIdx_none c u hu, Option.none_or]
  cases hfi : List.findIdx? (fun x => x = c) w with
  | none => exact Or.inl rfl
  | some j =>
    right
    show ((kk + u.length : Nat) : Int) ≤ ((kk + (j + u.length) : Nat) : Int)
    push_cast
    omega

set_option maxHeartbeats 1000000 in
theorem kvlmParseGo_base (P m : Bytes) (dct : Dict) (f : Nat)
    (hnone : dictFind dct none = none) :
    kvlmParseGo (P ++ (10 :: m)) (f + 1) P.length dct = .ok (dct ++ [(none, .bytes m)]) := by
  have hd : (P ++ (10 :: m)).drop P.length = 10 :: m := List.drop_left P _
  have hnl : pyFind (P ++ (10 :: m)) 10 P.length = ((P.length : Nat) : Int) := by
    have := pyFind_spec (P ++ (10 :: m)) 10 P.length [] m (by simp)
      (by simp) (by simp)
    simpa using this
  have hspc := pyFind_lower (P ++ (10 :: m)) 32 P.length [10] m (by simp)
    (by simp) (by decide)
  have hcond : pyFind (P ++ (10 :: m)) 32 P.length < 0 ∨
      pyFind (P ++ (10 :: m)) 10 P.length < pyFind (P ++ (10 :: m)) 32 P.length := by
    rcases hspc with h | h
    · left; omega
    · right
      simp only [List.length_cons, List.length_nil] at h
      rw [hnl]
      omega
  simp only [kvlmParseGo]
  rw [if_pos hcond, if_pos hnl]
  have hslice : pySliceFrom (P ++ (10 :: m)) ((P.length : Int) + 1) = m := by
    have ht : ((P.length : Int) + 1) = ((P.length + 1 : Nat) : Int) := by push_cast; ring
    rw [ht, pySliceFrom_drop _ _ (by simp), ← List.drop_drop, List.drop_left]
    rfl
  rw [hslice, dictSet_not_mem dct none (.bytes m) hnone]

theorem escSpec_length (v : Bytes) : v.length ≤ (escSpec v).length := by
  induction v with
  | nil => simp [escSpec]
  | cons c t ih =>
    simp only [escSpec]
    split_ifs <;> simp <;> omega

set_option maxHeartbeats 1600000 in
theorem kvlmParseGo_entry (P k v rest : Bytes) (b : Nat) (dct : Dict) (f : Nat)
    (hk : k ≠ []) (hk32 : 32 ∉ k) (hk10 : 10 ∉ k) (hb : b ≠ 32)
    (hkey : dictFind dct (some k) = none) :
    kvlmParseGo (P ++ (k ++ (32 :: (escSpec v ++ (10 :: (b :: rest)))))) (f + 1) P.length dct =
      kvlmParseGo (P ++ (k ++ (32 :: (escSpec v ++ (10 :: (b :: rest)))))) f
        (P.length + k.length + 1 + (escSpec v).length + 1) (dct ++ [(some k, .bytes v)]) := by
  have d0 : (P ++ (k ++ (32 :: (escSpec v ++ (10 :: (b :: rest)))))).drop P.length =
      k ++ 32 :: (escSpec v ++ (10 :: (b :: rest))) := List.drop_left P _
  have hspc : pyFind (P ++ (k ++ (32 :: (escSpec v ++ (10 :: (b :: rest)))))) 32 P.length =
      ((P.length + k.length : Nat) : Int) :=
    pyFind_spec _ 32 P.length k _ d0 (by simp) hk32
  have hnlge := pyFind_found_ge (P ++ (k ++ (32 :: (escSpec v ++ (10 :: (b :: rest)))))) 10
    P.length (k ++ [32]) (escSpec v) (b :: rest) (by simp) (by simp)
    (by simp [hk10])
  have hcond : ¬(pyFind (P ++ (k ++ (32 :: (escSpec v ++ (10 :: (b :: rest)))))) 32 P.length < 0 ∨
      pyFind (P ++ (k ++ (32 :: (escSpec v ++ (10 :: (b :: rest)))))) 10 P.length <
      pyFind (P ++ (k ++ (32 :: (escSpec v ++ (10 :: (b :: rest)))))) 32 P.length) := by
    rw [hspc]
    obtain ⟨h1, h2⟩ := hnlge
    simp only [List.length_append, List.length_cons, List.length_nil] at h1
    push_cast at h1 ⊢
    omega
  have harr : P ++ (k ++ (32 :: (escSpec v ++ (10 :: (b :: rest))))) =
      (P ++ (k ++ [32])) ++ (escSpec v ++ (10 :: (b :: rest))) := by simp
  have hk1 : 1 ≤ k.length := by
    cases k with
    | nil => exact absurd rfl hk
    | cons a t => simp
  have hno : (10 : Nat) ∉ (P ++ (k ++ [32])).drop (((P.length : Nat) : Int) + 1).toNat := by
    have ht : (((P.length : Nat) : Int) + 1).toNat = P.length + 1 := by omega
    rw [ht, List.drop_append, List.drop_append_of_le_length hk1]
    simp only [List.mem_append]
    rintro (hm | hm)
    · exact hk10 (List.mem_of_mem_drop hm)
    · simp at hm
  have hfuel : v.count 10 <
      (P ++ (k ++ (32 :: (escSpec v ++ (10 :: (b :: rest)))))).length + 2 := by
    have h1 : v.count 10 ≤ v.length := List.count_le_length 10 v
    have h2 := escSpec_length v
    simp only [List.length_append, List.length_cons]
    omega
  have hscan' := kvlmScan_ok v (P ++ (k ++ [32])) rest b
    ((P ++ (k ++ (32 :: (escSpec v ++ (10 :: (b :: rest)))))).length + 2)
    ((P.length : Nat) : Int) hb (by omega) (by simp) hno hfuel
  rw [← harr] at hscan'
  have hscan : kvlmScan (P ++ (k ++ (32 :: (escSpec v ++ (10 :: (b :: rest))))))
      ((P ++ (k ++ (32 :: (escSpec v ++ (10 :: (b :: rest)))))).length + 2) P.length =
      .ok ((P.length + k.length + 1 + (escSpec v).length : Nat) : Int) := by
    rw [hscan']
    congr 1
    simp only [List.length_append, List.length_cons, List.length_nil]
    omega
  have d1 : (P ++ (k ++ (32 :: (escSpec v ++ (10 :: (b :: rest)))))).drop
      (P.length + k.length) = 32 :: (escSpec v ++ (10 :: (b :: rest))) := by
    rw [← List.drop_drop, d0]
    exact List.drop_left k _
  have d2 : (P ++ (k ++ (32 :: (escSpec v ++ (10 :: (b :: rest)))))).drop
      (P.length + k.length + 1) = escSpec v ++ (10 :: (b :: rest)) := by
    rw [← List.drop_drop, d1]
    simp
  have hkey_slice : pySlice (P ++ (k ++ (32 :: (escSpec v ++ (10 :: (b :: rest))))))
      P.length ((P.length + k.length : Nat) : Int) = k :=
    pySlice_drop _ P.length k.length k _ d0 rfl (by simp)
  have hc1 : (((P.length + k.length : Nat) : Int) + 1) =
      ((P.length + k.length + 1 : Nat) : Int) := by push_cast; ring
  have hval_slice : pySlice (P ++ (k ++ (32 :: (escSpec v ++ (10 :: (b :: rest))))))
      ((P.length + k.length + 1 : Nat) : Int)
      ((P.length + k.length + 1 + (escSpec v).length : Nat) : Int) = escSpec v :=
    pySlice_drop _ (P.length + k.length + 1) (escSpec v).length (escSpec v) _ d2 rfl
      (by simp; omega)
  have hc2 : (((P.length + k.length + 1 + (escSpec v).length : Nat) : Int) + 1).toNat =
      P.length + k.length + 1 + (escSpec v).length + 1 := by omega
  simp only [kvlmParseGo]
  rw [if_neg hcond]
  simp only [hscan, hspc, hc1, hkey_slice, hval_slice, unesc_eq, unesc_esc, hkey, hc2,
    dictSet_not_mem dct (some k) (.bytes v) hkey]

set_option maxHeartbeats 1600000 in
theorem kvlmParseGo_render (m : Bytes) :
    ∀ (hs : List (Bytes × Bytes)) (P : Bytes) (dct : Dict) (f : Nat),
    (∀ e ∈ hs, goodKey e.1) →
    (∀ e ∈ hs, dictFind dct (some e.1) = none) →
    List.Pairwise (fun a b : Bytes × Bytes => a.1 ≠ b.1) hs →
    dictFind dct none = none →
    hs.length < f →
    kvlmParseGo (P ++ (renderEntries hs ++ (10 :: m))) f P.length dct =
      .ok (dct ++ (hs.map kvlmEntry ++ [(none, .bytes m)])) := by
  intro hs
  induction hs with
  | nil =>
    intro P dct f hgood hfind hpair hnone hf
    cases f with
    | zero => exact absurd hf (Nat.not_lt_zero _)
    | succ f' =>
      have := kvlmParseGo_base P m dct f' hnone
      simpa [renderEntries] using this
  | cons e t ih =>
    obtain ⟨k, v⟩ := e
    intro P dct f hgood hfind hpair hnone hf
    obtain ⟨hk, hk32, hk10⟩ := hgood (k, v) (List.mem_cons_self _ _)
    have hkeyd := hfind (k, v) (List.mem_cons_self _ _)
    rw [List.pairwise_cons] at hpair
    obtain ⟨hhead, hpt⟩ := hpair
    have hex : ∃ b rest, renderEntries t ++ (10 :: m) = b :: rest ∧ b ≠ 32 := by
      cases t with
      | nil => exact ⟨10, m, by simp [renderEntries], by decide⟩
      | cons e2 t2 =>
        obtain ⟨k2, v2⟩ := e2
        obtain ⟨hne2, h32b, _⟩ := hgood (k2, v2) (by simp)
        cases k2 with
        | nil => exact absurd rfl hne2
        | cons c k2t =>
          refine ⟨c, k2t ++ (32 :: (escSpec v2 ++ (10 :: (renderEntries t2 ++ (10 :: m))))),
            ?_, ?_⟩
          · simp [renderEntries]
          · intro hc
            exact h32b (by rw [← hc]; exact List.mem_cons_self c k2t)
    obtain ⟨b, rest, hbr, hb⟩ := hex
    cases f with
    | zero => exact absurd hf (Nat.not_lt_zero _)
    | succ f' =>
    have hf' : t.length < f' := by
      simp only [List.length_cons] at hf
      omega
    have hraw : P ++ (renderEntries ((k, v) :: t) ++ (10 :: m)) =
        P ++ (k ++ (32 :: (escSpec v ++ (10 :: (b :: rest))))) := by
      rw [← hbr]
      simp [renderEntries]
    rw [hraw, kvlmParseGo_entry P k v rest b dct f' hk hk32 hk10 hb hkeyd]
    have h2 : ∀ e ∈ t, dictFind (dct ++ [(some k, PyVal.bytes v)]) (some e.1) = none := by
      intro e he
      exact dictFind_append_singleton dct (some e.1) (some k) (PyVal.bytes v)
        (fun hc => hhead e he (Option.some.inj hc)) (hfind e (List.mem_cons_of_mem _ he))
    have h4 : dictFind (dct ++ [(some k, PyVal.bytes v)]) none = none :=
      dictFind_append_singleton dct none (some k) (PyVal.bytes v) (by simp) hnone
    have hih := ih (P ++ ((k ++ (32 :: escSpec v)) ++ [10])) (dct ++ [(some k, PyVal.bytes v)])
      f' (fun e he => hgood e (List.mem_cons_of_mem _ he)) h2 hpt h4 hf'
    have harg : (P ++ ((k ++ (32 :: escSpec v)) ++ [10])) ++ (renderEntries t ++ (10 :: m)) =
        P ++ (k ++ (32 :: (escSpec v ++ (10 :: (b :: rest))))) := by
      rw [← hbr]
      simp
    have hlen : (P ++ ((k ++ (32 :: escSpec v)) ++ [10])).length =
        P.length + k.length + 1 + (escSpec v).length + 1 := by
      simp only [List.length_append, List.length_cons, List.length_nil]
      omega
    rw [harg, hlen] at hih
    rw [hih]
    simp [kvlmEntry]

theorem renderEntries_length (hs : List (Bytes × Bytes)) :
    hs.length ≤ (renderEntries hs).length := by
  induction hs with
  | nil => simp [renderEntries]
  | cons e t ih =>
    obtain ⟨k, v⟩ := e
    simp only [renderEntries, List.length_cons, List.length_append]
    omega

theorem dictFind_render_none (hs : List (Bytes × Bytes)) (m : Bytes) :
    dictFind (hs.map kvlmEntry ++ [(none, PyVal.bytes m)]) none = some (PyVal.bytes m) := by
  induction hs with
  | nil => rfl
  | cons e t ih => simp [dictFind, kvlmEntry, List.find?_cons, ih]

theorem kvlmSerializeHeaders_render (hs : List (Bytes × Bytes)) (m : Bytes)
    (hgood : ∀ e ∈ hs, goodKey e.1) :
    kvlmSerializeHeaders (hs.map kvlmEntry ++ [(none, PyVal.bytes m)]) =
      .ok (renderEntries hs) := by
  induction hs with
  | nil => rfl
  | cons e t ih =>
    obtain ⟨k, v⟩ := e
    obtain ⟨hk, -, -⟩ := hgood (k, v) (List.mem_cons_self _ _)
    have iht := ih (fun e he => hgood e (List.mem_cons_of_mem _ he))
    simp only [List.map_cons, List.cons_append, kvlmSerializeHeaders, kvlmEntry,
      if_neg hk, Except.map, renderEntries, esc_eq, List.append_eq]
    rw [iht]
    simp

theorem kvlm_serialize_render (hs : List (Bytes × Bytes)) (m : Bytes)
    (hgood : ∀ e ∈ hs, goodKey e.1) :
    kvlm_serialize (hs.map kvlmEntry ++ [(none, PyVal.bytes m)]) =
      .ok (renderEntries hs ++ (10 :: (m ++ [10]))) := by
  simp only [kvlm_serialize, bind, Except.bind, kvlmSerializeHeaders_render hs m hgood,
    dictFind_render_none hs m]
  congr 1
  simp

theorem kvlm_parse_render (hs : List (Bytes × Bytes)) (m : Bytes)
    (hgood : ∀ e ∈ hs, goodKey e.1)
    (hpair : List.Pairwise (fun a b : Bytes × Bytes => a.1 ≠ b.1) hs) :
    kvlm_parse (renderEntries hs ++ (10 :: m)) =
      .ok (hs.map kvlmEntry ++ [(none, PyVal.bytes m)]) := by
  have hf : hs.length < (renderEntries hs ++ (10 :: m)).length + 1 := by
    have := renderEntries_length hs
    simp only [List.length_append, List.length_cons]
    omega
  have h := kvlmParseGo_render m hs [] [] ((renderEntries hs ++ (10 :: m)).length + 1)
    hgood (fun e he => rfl) hpair rfl hf
  simpa [kvlm_parse] using h

/-- C1 (amended): on the well-formed fragment the spec's law actually covers -
headers rendered from distinct non-empty space/newline-free keys with a
newline-terminated message slot - parsing recovers exactly the rendered
entries plus the message, and serializing that dictionary reproduces the
header lines verbatim; but the serializer emits `b"\n" + message + b"\n"`,
so the re-parsed message is `m ++ [10]`, never `m`, and the round-trip law
`parse (serialize (parse x)) = parse x` fails for every such input.  The
two-`parent` header parses to an ordered list of both parent identities as
claimed, but serializing that parsed result does not reproduce the two
lines: `val is not list` (identity comparison against the type object) is
always true, the list value reaches `v.replace`, and the call raises
`AttributeError`. -/
theorem kvlm_roundtrip_amended (hs : List (Bytes × Bytes)) (m : Bytes)
    (hgood : ∀ e ∈ hs, goodKey e.1)
    (hpair : List.Pairwise (fun a b : Bytes × Bytes => a.1 ≠ b.1) hs) :
    kvlm_parse (renderEntries hs ++ (10 :: m)) =
      .ok (hs.map kvlmEntry ++ [(none, PyVal.bytes m)]) ∧
    kvlm_serialize (hs.map kvlmEntry ++ [(none, PyVal.bytes m)]) =
      .ok (renderEntries hs ++ (10 :: (m ++ [10]))) ∧
    kvlm_parse (renderEntries hs ++ (10 :: (m ++ [10]))) =
      .ok (hs.map kvlmEntry ++ [(none, PyVal.bytes (m ++ [10]))]) ∧
    m ++ [10] ≠ m ∧
    kvlm_parse kvlmTwoParents =
      .ok [(some (asciiBytes "parent"),
            .list [.bytes (asciiBytes "bbbb"), .bytes (asciiBytes "cccc")]),
           (none, .bytes (asciiBytes "merge\n"))] ∧
    kvlm_serialize [(some (asciiBytes "parent"),
            .list [.bytes (asciiBytes "bbbb"), .bytes (asciiBytes "cccc")]),
           (none, .bytes (asciiBytes "merge\n"))] = .error .attributeError :=
  ⟨kvlm_parse_render hs m hgood hpair,
   kvlm_serialize_render hs m hgood,
   kvlm_parse_render hs (m ++ [10]) hgood hpair,
   fun h => by simpa using congrArg List.length h,
   by rfl, by rfl⟩

/-- Witness for `kvlm_roundtrip_amended` at the concrete header
`tree abc` with message `hello\n`. -/
theorem kvlm_roundtrip_amended_witness :
    (∀ e ∈ [(asciiBytes "tree", asciiBytes "abc")], goodKey e.1) ∧
    List.Pairwise (fun a b : Bytes × Bytes => a.1 ≠ b.1)
      [(asciiBytes "tree", asciiBytes "abc")] ∧
    kvlm_parse (renderEntries [(asciiBytes "tree", asciiBytes "abc")] ++
        (10 :: asciiBytes "hello\n")) =
      .ok ([(asciiBytes "tree", asciiBytes "abc")].map kvlmEntry ++
        [(none, PyVal.bytes (asciiBytes "hello\n"))]) :=
  ⟨by decide, by decide,
   (kvlm_roundtrip_amended [(asciiBytes "tree", asciiBytes "abc")] (asciiBytes "hello\n")
     (by decide) (by decide)).1⟩
